import Mathlib

/-!
# image-downloader: a shallow embedding of `main.go`

The program downloads images, resizes them, stores the result in a table
and removes the resized file.  Every function of `main.go` that the
properties below talk about is translated into a pure function over an
explicit `World` (file system, database, call trace).  What the operating
system, the network, the image libraries and the random source answer is not
decided by the program: those answers are the fields of `Env`, and every
theorem holds for every `Env`.
-/

namespace ImageDownloader

/-- File contents, request bodies and table blobs: a sequence of byte values. -/
abbrev Bytes := List Nat

/-- A decoded raster image (`image.Image`): its bounds and its pixel data. -/
structure Image where
  width : Nat
  height : Nat
  pixels : List Nat
  deriving DecidableEq, Repr

/-- The Go struct `ImageInfo` (main.go 31-35). -/
structure ImageInfo where
  URL : String
  FileName : String
  Directory : String
  deriving DecidableEq, Repr

/-- The Go struct `SearchInput` (main.go 26-29). -/
structure SearchInput where
  SearchQuery : String
  MaxImages : Int
  deriving DecidableEq, Repr

/-- The Go struct `Config` (main.go 37-44). -/
structure Config where
  DatabaseURL : String
  DownloadDir : String
  ResizedDir : String
  MaxImageWorkers : Int
  ResizeWidth : Nat
  ResizeHeight : Nat
  deriving DecidableEq, Repr

/-- What `http.Get` hands back: a transport error (the only case in which its
`err` is not `nil`; a status code outside 2xx is no error for `http.Get`), or
a response with its status code and its body.  The body is a stream: `body`
are the bytes it delivers and `bodyFails` tells whether reading it ends in an
error instead of end-of-file. -/
inductive HttpResult where
  | transportError : HttpResult
  | response (status : Nat) (body : Bytes) (bodyFails : Bool) : HttpResult
  deriving DecidableEq, Repr

/-- The answers of everything outside the program.  Each answer may depend on
the moment of the call (`World.tick`), so that the same call may succeed once
and fail later. -/
structure Env where
  /-- The function `filepath.Join` on a directory and a file name. -/
  join : String → String → String
  /-- The call `http.Get url`. -/
  httpGet : Nat → String → HttpResult
  /-- Whether `os.Create path` is refused (missing directory, permissions). -/
  createFails : Nat → String → Bool
  /-- Whether `os.Open path` is refused although the file exists. -/
  openFails : Nat → String → Bool
  /-- Whether reading an opened file ends in an error. -/
  readFails : Nat → String → Bool
  /-- How many bytes the file at `path` accepts before a write fails
  (`none`: no limit). -/
  writeLimit : Nat → String → Option Nat
  /-- Whether `os.Remove path` is refused although the file exists. -/
  removeFails : Nat → String → Bool
  /-- The function `image.Decode`. -/
  decode : Bytes → Option Image
  /-- The function `resize.Resize width height img resize.Lanczos3`. -/
  resize : Nat → Nat → Image → Image
  /-- The encoder of `jpeg.Encode` (`none`: the encoder reports an error). -/
  encode : Image → Option Bytes
  /-- Whether the database rejects the statement with these parameters. -/
  execFails : Nat → String → Bytes → Bool
  /-- The value of the n-th call of `rand.Int63` (a number below `2 ^ 63`). -/
  int63 : Nat → Nat
  /-- The `src` attributes of the `img` elements of the page the collector
  gets for a URL, in document order (none when the request fails). -/
  visit : String → List String

/-- An error value returned by one of the functions (`error` in Go). -/
inductive Err where
  | http : Err
  | create : Err
  | copy : Err
  | openFile : Err
  | read : Err
  | decode : Err
  | encode : Err
  | exec : Err
  | remove : Err
  deriving DecidableEq, Repr

/-- A call the worker makes, recorded in the order the calls are made. -/
inductive Call where
  | download (url directory fileName : String) : Call
  | resize (inputPath outputPath : String) (width height : Nat) : Call
  | store (fileName imagePath : String) : Call
  | remove (path : String) : Call
  deriving DecidableEq, Repr

/-- A statement handed to `db.Exec`, with its two parameters. -/
structure Stmt where
  query : String
  filename : String
  data : Bytes
  deriving DecidableEq, Repr

/-- The state the program acts on. -/
structure World where
  /-- The file system: the content of the file at a path, if there is one. -/
  fs : String → Option Bytes
  /-- Every statement issued with `db.Exec`, oldest first. -/
  execs : List Stmt
  /-- The rows of table `images` (filename, data), oldest first. -/
  rows : List (String × Bytes)
  /-- The lines written with `log.Println`, oldest first. -/
  logs : List String
  /-- The number of system and library calls made so far. -/
  tick : Nat

/-- The file system after the file at `path` has got the content `data`. -/
def writeFile (fs : String → Option Bytes) (path : String) (data : Bytes) :
    String → Option Bytes :=
  fun p => if p = path then some data else fs p

/-- The file system after the file at `path` has been unlinked. -/
def unlinkFile (fs : String → Option Bytes) (path : String) : String → Option Bytes :=
  fun p => if p = path then none else fs p

/-- The world one call later. -/
def World.next (w : World) : World := { w with tick := w.tick + 1 }

/-- The bytes that reach a file when `data` is written to it and the file
accepts `limit` bytes, and whether the write failed. -/
def writeBytes (limit : Option Nat) (data : Bytes) : Bytes × Bool :=
  match limit with
  | none => (data, false)
  | some k => if data.length ≤ k then (data, false) else (data.take k, true)

/-- The text of the statement of `storeImageInDatabase` (main.go 113). -/
def insertQuery : String := "INSERT INTO images (filename, data) VALUES ($1, $2)"

/-- The function `downloadImage` (main.go 46-69). -/
def downloadImage (env : Env) (w : World) (url directory fileName : String) :
    World × Option Err :=
  match env.httpGet w.tick url with
  | .transportError => (w.next, some Err.http)
  | .response _ body bodyFails =>
    let w1 := w.next
    let filePath := env.join directory fileName
    if env.createFails w1.tick filePath then (w1.next, some Err.create)
    else
      let w2 := { w1.next with fs := writeFile w1.fs filePath [] }
      let written := writeBytes (env.writeLimit w2.tick filePath) body
      let w3 := { w2.next with fs := writeFile w2.fs filePath written.1 }
      if written.2 || bodyFails then (w3, some Err.copy)
      else ({ w3 with logs := w3.logs ++ ["Downloaded: " ++ url] }, none)

/-- The function `resizeImage` (main.go 71-97). -/
def resizeImage (env : Env) (w : World) (inputPath outputPath : String)
    (width height : Nat) : World × Option Err :=
  match w.fs inputPath with
  | none => (w.next, some Err.openFile)
  | some content =>
    if env.openFails w.tick inputPath then (w.next, some Err.openFile)
    else
      let w1 := w.next
      if env.readFails w1.tick inputPath then (w1.next, some Err.decode)
      else
        match env.decode content with
        | none => (w1.next, some Err.decode)
        | some img =>
          let w2 := w1.next
          let resizedImg := env.resize width height img
          if env.createFails w2.tick outputPath then (w2.next, some Err.create)
          else
            let w3 := { w2.next with fs := writeFile w2.fs outputPath [] }
            match env.encode resizedImg with
            | none => (w3.next, some Err.encode)
            | some jpegBytes =>
              let written := writeBytes (env.writeLimit w3.tick outputPath) jpegBytes
              let w4 := { w3.next with fs := writeFile w3.fs outputPath written.1 }
              if written.2 then (w4, some Err.encode)
              else
                ({ w4 with logs := w4.logs ++ ["Resized and saved: " ++ outputPath] }, none)

/-- The function `storeImageInDatabase` (main.go 99-115). -/
def storeImageInDatabase (env : Env) (w : World) (filename imagePath : String) :
    World × Option Err :=
  match w.fs imagePath with
  | none => (w.next, some Err.openFile)
  | some imageData =>
    if env.openFails w.tick imagePath then (w.next, some Err.openFile)
    else
      let w1 := w.next
      if env.readFails w1.tick imagePath then (w1.next, some Err.read)
      else
        let w2 := w1.next
        let stmt : Stmt := ⟨insertQuery, filename, imageData⟩
        if env.execFails w2.tick filename imageData then
          ({ w2.next with execs := w2.execs ++ [stmt] }, some Err.exec)
        else
          ({ w2.next with execs := w2.execs ++ [stmt],
                          rows := w2.rows ++ [(filename, imageData)] }, none)

/-- The call `os.Remove path`. -/
def osRemove (env : Env) (w : World) (path : String) : World × Option Err :=
  match w.fs path with
  | none => (w.next, some Err.remove)
  | some _ =>
    if env.removeFails w.tick path then (w.next, some Err.remove)
    else ({ w.next with fs := unlinkFile w.fs path }, none)

/-- The world after `log.Println` of a line. -/
def World.println (w : World) (line : String) : World := { w with logs := w.logs ++ [line] }

/-- The call of `downloadImage` the worker makes for an item (main.go 121). -/
def downloadCall (imgInfo : ImageInfo) : Call :=
  .download imgInfo.URL imgInfo.Directory imgInfo.FileName

/-- The call of `resizeImage` the worker makes for an item (main.go 128-130). -/
def resizeCall (env : Env) (resizeWidth resizeHeight : Nat) (resizedDirectory : String)
    (imgInfo : ImageInfo) : Call :=
  .resize (env.join imgInfo.Directory imgInfo.FileName)
    (env.join resizedDirectory imgInfo.FileName) resizeWidth resizeHeight

/-- The call of `storeImageInDatabase` the worker makes for an item (main.go 137). -/
def storeCall (env : Env) (resizedDirectory : String) (imgInfo : ImageInfo) : Call :=
  .store imgInfo.FileName (env.join resizedDirectory imgInfo.FileName)

/-- The call of `os.Remove` the worker makes for an item (main.go 143). -/
def removeCall (env : Env) (resizedDirectory : String) (imgInfo : ImageInfo) : Call :=
  .remove (env.join resizedDirectory imgInfo.FileName)

/-- The body of the loop of `downloadResizeAndStoreWorker` (main.go 120-147),
run for one received item: the world afterwards and the calls made, in the
order they were made. -/
def processItem (env : Env) (resizeWidth resizeHeight : Nat) (resizedDirectory : String)
    (w : World) (imgInfo : ImageInfo) : World × List Call :=
  let r1 := downloadImage env w imgInfo.URL imgInfo.Directory imgInfo.FileName
  match r1.2 with
  | some _ => (r1.1.println "Error downloading image:", [downloadCall imgInfo])
  | none =>
    let inputPath := env.join imgInfo.Directory imgInfo.FileName
    let outputPath := env.join resizedDirectory imgInfo.FileName
    let r2 := resizeImage env r1.1 inputPath outputPath resizeWidth resizeHeight
    match r2.2 with
    | some _ =>
      (r2.1.println "Error resizing image:",
        [downloadCall imgInfo, resizeCall env resizeWidth resizeHeight resizedDirectory imgInfo])
    | none =>
      let r3 := storeImageInDatabase env r2.1 imgInfo.FileName outputPath
      let w3 := match r3.2 with
        | some _ => r3.1.println "Error storing image in the database:"
        | none => r3.1
      let r4 := osRemove env w3 outputPath
      let w4 := match r4.2 with
        | some _ => r4.1.println "Error deleting resized file:"
        | none => r4.1
      (w4, [downloadCall imgInfo,
            resizeCall env resizeWidth resizeHeight resizedDirectory imgInfo,
            storeCall env resizedDirectory imgInfo,
            removeCall env resizedDirectory imgInfo])

/-- The function `downloadResizeAndStoreWorker` (main.go 117-149) run by a
single worker over the items it receives from the channel, in the order it
receives them.  The loop ends when the queue is exhausted; the result is the
world then and the calls made, in the order they were made. -/
def downloadResizeAndStoreWorker (env : Env) (resizeWidth resizeHeight : Nat) (resizedDirectory : String) :
    World → List ImageInfo → World × List Call
  | w, [] => (w, [])
  | w, imgInfo :: rest =>
    let r := processItem env resizeWidth resizeHeight resizedDirectory w imgInfo
    let r2 := downloadResizeAndStoreWorker env resizeWidth resizeHeight resizedDirectory r.1 rest
    (r2.1, r.2 ++ r2.2)

/-- A world with an empty file system, an empty table and nothing logged. -/
def emptyWorld : World := ⟨fun _ => none, [], [], [], 0⟩

/-- The function `filepath.Join` on a directory that is a plain name, with or
without `./` in front, and a plain file name: the cleaned directory, a slash
and the file name. -/
def sampleJoin (d f : String) : String :=
  String.mk (match d.data with
    | '.' :: '/' :: rest => rest
    | cs => cs) ++ "/" ++ f

/-- An environment in which every call succeeds: `join` is `sampleJoin`, every URL answers with `status` and a three-byte
body, the decoder reads width and height from the first two bytes, the
resizer sets the bounds, the encoder writes the bounds as two bytes and, as
`jpeg.Encode` does, refuses an image with a side of 65536 or more. -/
def sampleEnv (status : Nat) : Env where
  join := sampleJoin
  httpGet := fun _ _ => .response status [50, 50, 7] false
  createFails := fun _ _ => false
  openFails := fun _ _ => false
  readFails := fun _ _ => false
  writeLimit := fun _ _ => none
  removeFails := fun _ _ => false
  decode := fun b => match b with
    | wd :: ht :: px => some ⟨wd, ht, px⟩
    | _ => none
  resize := fun wd ht img => ⟨wd, ht, img.pixels⟩
  encode := fun img =>
    if img.width < 65536 ∧ img.height < 65536 then some [img.width, img.height] else none
  execFails := fun _ _ _ => false
  int63 := fun n => 5577006791947779410 + n
  visit := fun _ => ["http://h/1.png", "/logo.png", "http://h/2.png"]

/-- The environment `sampleEnv 200` with every URL unreachable. -/
def offlineEnv : Env := { sampleEnv 200 with httpGet := fun _ _ => .transportError }

/-- Whether a recorded call is a call of `downloadImage`. -/
def Call.isDownload : Call → Bool
  | .download _ _ _ => true
  | _ => false

/-- The path a recorded call of `os.Remove` is given, if the call is one. -/
def Call.removedPath : Call → Option String
  | .remove p => some p
  | _ => none

/-- The environment `sampleEnv 200` with the URL `http://h/bad` unreachable. -/
def flakyEnv : Env :=
  { sampleEnv 200 with
    httpGet := fun _ url =>
      if url = "http://h/bad" then .transportError else .response 200 [50, 50, 7] false }

/-- A work item whose URL is unreachable in `flakyEnv`. -/
def badItem : ImageInfo := ⟨"http://h/bad", "1.jpg", "images"⟩

/-- A work item whose URL answers in `flakyEnv`. -/
def goodItem : ImageInfo := ⟨"http://h/good", "2.jpg", "images"⟩

/-- The call `strconv.FormatInt(n, 10)` for a number that is not negative. -/
def formatInt (n : Nat) : String := String.mk (Nat.toDigits 10 n)

/-- The file name main gives a work item from a value of `rand.Int63`
(main.go 256). -/
def fileNameOf (r : Nat) : String := formatInt r ++ ".jpg"

/-- The work items the loop of main.go 255-263 builds and sends for the URLs
`urls`, in order, when `draws` calls of `rand.Int63` have been made before. -/
def producerItems (env : Env) (downloadDir : String) : Nat → List String → List ImageInfo
  | _, [] => []
  | draws, url :: rest =>
    ⟨url, fileNameOf (env.int63 draws), downloadDir⟩ :: producerItems env downloadDir (draws + 1) rest

/-- The URL main visits for a search input (main.go 216-217, 238). -/
def searchUrl (input : SearchInput) : String :=
  "https://www.google.com/search?q=" ++ input.SearchQuery.replace " " "_"
    ++ "&tbm=isch&num=" ++ toString input.MaxImages

/-- The call `strings.HasPrefix(s, "http")`. -/
def hasHttpPrefix (s : String) : Bool := "http".toList.isPrefixOf s.toList

/-- The slice `imageUrls` main collects for a search input (main.go 221-238):
the callback of `c.OnHTML("img", ...)` keeps the `src` of every `img` element
that starts with `http`. -/
def collectImageUrls (env : Env) (input : SearchInput) : List String :=
  (env.visit (searchUrl input)).filter hasHttpPrefix

/-- The configuration main builds (main.go 182-189). -/
def mainConfig (dsn : String) : Config :=
  ⟨dsn, "./images", "./resized_images", 5, 100, 100⟩

/-! ## The dispatch block of `main` (main.go 248-266) as a transition system

The goroutines — main and the workers it starts — take steps one at a
time, in any order.  A step of main is one statement of the block; a step of
a worker is one receive on the channel, one run of the loop body for the item
it received, or its exit.  A run of the loop body acts on the shared world in
one step; what is proved about the dispatch block is which items the body is
run for, by which worker and how often.  The `sync.WaitGroup` is a counter
that `Add` changes, that panics when it becomes negative and that `Wait` waits
on until it is zero.  The state keeps the integer the counter stands for;
`sync.WaitGroup` holds it in 32 bits (`wgCounter32`), which is the same number
as long as it lies between `-2 ^ 31` and `2 ^ 31 - 1`.  The channel is a
first-in first-out buffer of fixed capacity, a send waits while the buffer is
full, a receive waits while it is empty and not closed. -/

/-- The number the 32 bits of the counter of a `sync.WaitGroup` stand for when
the deltas added so far sum up to `x` (`int32(state >> 32)` in `Add`). -/
def wgCounter32 (x : Int) : Int := (x + 2 ^ 31) % 2 ^ 32 - 2 ^ 31

/-- Where the goroutine of main stands. -/
inductive MainPc where
  /-- Before `wg.Add(config.MaxImageWorkers)` (250); the channel is made. -/
  | add : MainPc
  /-- In the loop of 251-253, before the test `i < config.MaxImageWorkers`. -/
  | spawn (i : Nat) : MainPc
  /-- In the loop of 255-263, with the URLs not yet sent. -/
  | push (urls : List String) : MainPc
  /-- Before `close(imageChannel)` (265). -/
  | close : MainPc
  /-- In `wg.Wait()` (266). -/
  | wait : MainPc
  /-- After `wg.Wait()` has returned. -/
  | done : MainPc
  deriving DecidableEq, Repr

/-- Where a goroutine running `downloadResizeAndStoreWorker` stands. -/
inductive WorkerPc where
  /-- At the receive of `for imgInfo := range images` (119). -/
  | recv : WorkerPc
  /-- An item is received and the loop body (120-147) is to run for it. -/
  | busy (imgInfo : ImageInfo) : WorkerPc
  /-- The loop is over and the deferred `wg.Done()` has run (118). -/
  | exited : WorkerPc
  deriving DecidableEq, Repr

/-- The goroutines: main, and the workers in the order they were started. -/
inductive Tid where
  | main : Tid
  | worker (i : Nat) : Tid
  deriving DecidableEq, Repr

/-- The state of the dispatch block. -/
structure State where
  /-- File system, database and log. -/
  world : World
  /-- The slice `imageUrls`. -/
  urls : List String
  /-- Where main stands. -/
  main : MainPc
  /-- Where each started worker stands. -/
  workers : List WorkerPc
  /-- The buffer of `imageChannel`, oldest item first. -/
  chan : List ImageInfo
  /-- The capacity of `imageChannel`. -/
  cap : Nat
  /-- Whether `imageChannel` is closed. -/
  closed : Bool
  /-- The counter of the wait group `wg`: the sum of the deltas added. -/
  wg : Int
  /-- The number of calls of `rand.Int63` made so far. -/
  draws : Nat
  /-- Whether a goroutine has panicked (the process is gone). -/
  panicked : Bool
  /-- For every run of the loop body, oldest first: the worker and the item. -/
  attempts : List (Nat × ImageInfo)
  /-- The calls made by the workers, in the order the loop bodies ran. -/
  calls : List Call

/-- The state right after `imageChannel := make(chan ImageInfo,
len(imageUrls))` (main.go 248), with a fresh wait group (214). -/
def initState (w : World) (draws : Nat) (urls : List String) : State :=
  { world := w, urls := urls, main := .add, workers := [], chan := [], cap := urls.length,
    closed := false, wg := 0, draws := draws, panicked := false, attempts := [], calls := [] }

/-- One step of main, if main can take one. -/
def stepMain (env : Env) (cfg : Config) (st : State) : Option State :=
  match st.main with
  | .add =>
    if st.wg + cfg.MaxImageWorkers < 0 then some { st with panicked := true }
    else some { st with wg := st.wg + cfg.MaxImageWorkers, main := .spawn 0 }
  | .spawn i =>
    if (i : Int) < cfg.MaxImageWorkers then
      some { st with workers := st.workers ++ [.recv], main := .spawn (i + 1) }
    else some { st with main := .push st.urls }
  | .push [] => some { st with main := .close }
  | .push (url :: rest) =>
    if st.chan.length < st.cap then
      let fileName := fileNameOf (env.int63 st.draws)
      let imgInfo : ImageInfo := ⟨url, fileName, cfg.DownloadDir⟩
      some { st with chan := st.chan ++ [imgInfo], draws := st.draws + 1, main := .push rest }
    else none
  | .close => some { st with closed := true, main := .wait }
  | .wait => if st.wg = 0 then some { st with main := .done } else none
  | .done => none

/-- One step of worker `i`, if there is such a worker and it can take one. -/
def stepWorker (env : Env) (cfg : Config) (st : State) (i : Nat) : Option State :=
  match st.workers[i]? with
  | none => none
  | some .recv =>
    match st.chan with
    | imgInfo :: rest =>
      some { st with chan := rest, workers := st.workers.set i (.busy imgInfo) }
    | [] =>
      if st.closed then
        if st.wg - 1 < 0 then some { st with panicked := true }
        else some { st with wg := st.wg - 1, workers := st.workers.set i .exited }
      else none
  | some (.busy imgInfo) =>
    let r := processItem env cfg.ResizeWidth cfg.ResizeHeight cfg.ResizedDir st.world imgInfo
    some { st with world := r.1, calls := st.calls ++ r.2,
                   attempts := st.attempts ++ [(i, imgInfo)],
                   workers := st.workers.set i .recv }
  | some .exited => none

/-- One step of a goroutine; after a panic nothing runs any more. -/
def step (env : Env) (cfg : Config) (st : State) (t : Tid) : Option State :=
  if st.panicked then none
  else
    match t with
    | .main => stepMain env cfg st
    | .worker i => stepWorker env cfg st i

/-- The state a schedule leads to, if every goroutine of the schedule can
take its step when its turn comes. -/
def run (env : Env) (cfg : Config) : State → List Tid → Option State
  | st, [] => some st
  | st, t :: sched =>
    match step env cfg st t with
    | none => none
    | some st2 => run env cfg st2 sched

/-- The number of workers that have exited. -/
def exitedCount : List WorkerPc → Nat
  | [] => 0
  | .exited :: ws => exitedCount ws + 1
  | _ :: ws => exitedCount ws

/-- The items the workers have received and not yet run the loop body for. -/
def busyItems : List WorkerPc → List ImageInfo
  | [] => []
  | .busy imgInfo :: ws => imgInfo :: busyItems ws
  | _ :: ws => busyItems ws

/-- The URLs main has not yet sent an item for. -/
def pendingUrls (st : State) : List String :=
  match st.main with
  | .add => st.urls
  | .spawn _ => st.urls
  | .push rest => rest
  | _ => []

/-- The number of steps main has still to take. -/
def mainSteps (cfg : Config) (st : State) : Nat :=
  match st.main with
  | .add => cfg.MaxImageWorkers.toNat + st.urls.length + 5
  | .spawn i => (cfg.MaxImageWorkers.toNat - i) + st.urls.length + 4
  | .push rest => rest.length + 3
  | .close => 2
  | .wait => 1
  | .done => 0

/-- The number of workers main has still to start. -/
def unstarted (cfg : Config) (st : State) : Nat :=
  match st.main with
  | .add => cfg.MaxImageWorkers.toNat
  | .spawn i => cfg.MaxImageWorkers.toNat - i
  | _ => 0

/-- The number of steps the started workers have still to take, the receives
and loop bodies for items not yet received left aside. -/
def workerSteps : List WorkerPc → Nat
  | [] => 0
  | .recv :: ws => workerSteps ws + 1
  | .busy _ :: ws => workerSteps ws + 2
  | .exited :: ws => workerSteps ws

/-- A bound on the number of steps the dispatch block can still take. -/
def stepsLeft (cfg : Config) (st : State) : Nat :=
  (if st.panicked then 0 else 1) + mainSteps cfg st + unstarted cfg st + workerSteps st.workers
    + 2 * ((pendingUrls st).length + st.chan.length)

/-- What holds in every state the dispatch block reaches when the number of
workers is not negative; `items` are the work items of the run. -/
structure Inv (env : Env) (cfg : Config) (items : List ImageInfo) (st : State) : Prop where
  acct : (st.attempts.map Prod.snd ++ busyItems st.workers ++ st.chan
    ++ producerItems env cfg.DownloadDir st.draws (pendingUrls st)).Perm items
  alive : st.panicked = false
  counter : match st.main with
    | .add => st.wg = 0 ∧ st.workers = []
    | .spawn i => st.wg = cfg.MaxImageWorkers - exitedCount st.workers ∧
        st.workers.length = i ∧ (i : Int) ≤ cfg.MaxImageWorkers
    | _ => st.wg = cfg.MaxImageWorkers - exitedCount st.workers ∧
        (st.workers.length : Int) = cfg.MaxImageWorkers
  closing : st.closed = true ↔ (st.main = .wait ∨ st.main = .done)
  drained : 0 < exitedCount st.workers → st.closed = true ∧ st.chan = []
  waited : st.main = .done → st.wg = 0
  room : st.chan.length + (pendingUrls st).length ≤ st.cap
  ids : ∀ a ∈ st.attempts, a.1 < st.workers.length

/-- A configuration with two workers. -/
def twoWorkers : Config := ⟨"dsn", "images", "resized_images", 2, 100, 100⟩

/-- A configuration with no worker. -/
def noWorkers : Config := ⟨"dsn", "images", "resized_images", 0, 100, 100⟩

/-- A configuration with a negative number of workers. -/
def negativeWorkers : Config := ⟨"dsn", "images", "resized_images", -1, 100, 100⟩

/-- Three image URLs. -/
def threeUrls : List String := ["http://h/a.png", "http://h/bad", "http://h/c.png"]

/-- A schedule of two workers and three items that ends with main returned:
the workers take the items while main is still sending. -/
def sampleSchedule : List Tid :=
  [.main, .main, .main, .main, .main, .worker 1, .main, .worker 0, .worker 1, .main,
   .worker 1, .worker 0, .main, .worker 1, .main, .worker 0, .worker 1, .main]

/-- The value of a decimal digit character. -/
def digitValue (c : Char) : Nat := c.toNat - 48

/-- The number a sequence of decimal digits stands for. -/
def parseDecimal (cs : List Char) : Nat := cs.foldl (fun a c => a * 10 + digitValue c) 0

/-- The values of `rand.Int63` behind the file names of `producerItems`. -/
def producerDraws (env : Env) (draws n : Nat) : List Nat :=
  (List.range n).map (fun i => env.int63 (draws + i))

/-- The environment `sampleEnv 200` with a random source whose first and third
value are the same. -/
def repeatingEnv : Env :=
  { sampleEnv 200 with
    int63 := fun n => if n = 2 then 5577006791947779410 else 5577006791947779410 + n }

/-- A search input that asks for one image. -/
def oneImage : SearchInput := ⟨"red panda", 1⟩

/-- A world whose only file is `resized_images/1.jpg`, with two bytes. -/
def resizedWorld : World :=
  ⟨writeFile (fun _ => none) "resized_images/1.jpg" [100, 100], [], [], [], 0⟩

/-- The one URL of a run with a single image. -/
def oneUrl : List String := ["http://h/good"]

/-- The work item main builds for `oneUrl` in `sampleEnv`. -/
def mainItem : ImageInfo := ⟨"http://h/good", fileNameOf 5577006791947779410, "./images"⟩

/-- Modelled from the spec: the image libraries `main.go` imports (`image`,
`image/jpeg`, `github.com/nfnt/resize`) are not part of the repository.  This
is what the spec (4.3, 8) says of them: the target dimensions of a resize are
taken literally, and encoding then decoding keeps the dimensions; together
with the size the encoder accepts: `jpeg.Encode` reports `image is too large
to encode` for an image with a side of 65536 or more. -/
structure CodecContract (env : Env) : Prop where
  resize_bounds : ∀ width height img, 1 ≤ width → 1 ≤ height →
    (env.resize width height img).width = width ∧
    (env.resize width height img).height = height
  encode_accepts : ∀ img, img.width < 65536 → img.height < 65536 →
    (env.encode img).isSome = true
  encode_refuses : ∀ img, 65536 ≤ img.width ∨ 65536 ≤ img.height → env.encode img = none
  roundtrip : ∀ img bytes, env.encode img = some bytes →
    ∃ out, env.decode bytes = some out ∧ out.width = img.width ∧ out.height = img.height

/-- A world whose only file is `images/1.jpg`, an image of 50 x 50. -/
def rawWorld : World := ⟨writeFile (fun _ => none) "images/1.jpg" [50, 50, 7], [], [], [], 0⟩

/-! ## Theorems -/

/-- C9: when `http.Get` answers with a response whose body is read to the
end, `os.Create` accepts the path and every write succeeds, `downloadImage`
returns no error and afterwards the file at `filepath.Join(directory,
fileName)` holds exactly the bytes of the response body; no other path of the
file system is changed. -/
theorem downloadImage_stores_body (env : Env) (w : World) (url directory fileName : String)
    (status : Nat) (body : Bytes)
    (hget : env.httpGet w.tick url = .response status body false)
    (hcreate : env.createFails (w.tick + 1) (env.join directory fileName) = false)
    (hwrite : (writeBytes (env.writeLimit (w.tick + 2) (env.join directory fileName))
      body).2 = false) :
    (downloadImage env w url directory fileName).2 = none ∧
    (downloadImage env w url directory fileName).1.fs (env.join directory fileName)
      = some body ∧
    ∀ p, p ≠ env.join directory fileName →
      (downloadImage env w url directory fileName).1.fs p = w.fs p := by
  have hdata : (writeBytes (env.writeLimit (w.tick + 2) (env.join directory fileName))
      body).1 = body := by
    unfold writeBytes at hwrite ⊢
    cases hlim : env.writeLimit (w.tick + 2) (env.join directory fileName) with
    | none => rfl
    | some k =>
      rw [hlim] at hwrite
      by_cases hk : body.length ≤ k
      · simp [hk]
      · simp [hk] at hwrite
  refine ⟨?_, ?_, ?_⟩
  · simp [downloadImage, hget, World.next, hcreate, hwrite]
  · simp [downloadImage, hget, World.next, hcreate, hwrite, writeFile, hdata]
  · intro p hp
    simp [downloadImage, hget, World.next, hcreate, hwrite, writeFile, hp]

/-- A concrete instance of `downloadImage_stores_body`. -/
theorem downloadImage_stores_body_witness :
    (downloadImage (sampleEnv 200) emptyWorld "http://h/a.png" "images" "1.jpg").2 = none ∧
    (downloadImage (sampleEnv 200) emptyWorld "http://h/a.png" "images" "1.jpg").1.fs
      ((sampleEnv 200).join "images" "1.jpg") = some [50, 50, 7] ∧
    ∀ p, p ≠ (sampleEnv 200).join "images" "1.jpg" →
      (downloadImage (sampleEnv 200) emptyWorld "http://h/a.png" "images" "1.jpg").1.fs p
        = emptyWorld.fs p :=
  downloadImage_stores_body (sampleEnv 200) emptyWorld "http://h/a.png" "images" "1.jpg"
    200 [50, 50, 7] rfl rfl rfl

/-- C2 as stated fails: a response with status 404 is no error for
`downloadImage`; it returns `nil` and the file is created with the body of
the error page. -/
theorem downloadImage_non2xx_counterexample :
    (sampleEnv 404).httpGet emptyWorld.tick "http://h/missing" = .response 404 [50, 50, 7] false ∧
    (downloadImage (sampleEnv 404) emptyWorld "http://h/missing" "images" "1.jpg").2 = none ∧
    (downloadImage (sampleEnv 404) emptyWorld "http://h/missing" "images" "1.jpg").1.fs
      ((sampleEnv 404).join "images" "1.jpg") = some [50, 50, 7] := by
  refine ⟨rfl, rfl, ?_⟩
  simp [downloadImage, sampleEnv, World.next, writeBytes, writeFile, emptyWorld]

/-- C2, amended: when `http.Get` returns a transport error, `downloadImage`
returns an error and leaves the whole file system as it was, so no file is
created; when `http.Get` returns a response, whatever its status code,
`downloadImage` returns an error exactly when `os.Create` is refused, a write
fails or reading the body fails. -/
theorem downloadImage_error_cases (env : Env) (w : World) (url directory fileName : String) :
    (env.httpGet w.tick url = .transportError →
      (downloadImage env w url directory fileName).2 = some Err.http ∧
      (downloadImage env w url directory fileName).1.fs = w.fs) ∧
    (∀ status body bodyFails, env.httpGet w.tick url = .response status body bodyFails →
      ((downloadImage env w url directory fileName).2 ≠ none ↔
        (env.createFails (w.tick + 1) (env.join directory fileName) = true ∨
         (writeBytes (env.writeLimit (w.tick + 2) (env.join directory fileName)) body).2 = true ∨
         bodyFails = true))) := by
  constructor
  · intro hget
    simp [downloadImage, hget, World.next]
  · intro status body bodyFails hget
    by_cases hc : env.createFails (w.tick + 1) (env.join directory fileName) = true
    · simp [downloadImage, hget, World.next, hc]
    · by_cases hw : (writeBytes (env.writeLimit (w.tick + 2) (env.join directory fileName))
          body).2 = true
      · simp [downloadImage, hget, World.next, hc, hw]
      · cases bodyFails <;> simp [downloadImage, hget, World.next, hc, hw]

/-- A concrete instance of `downloadImage_error_cases`: an unreachable URL and
a URL answering 404. -/
theorem downloadImage_error_cases_witness :
    ((downloadImage offlineEnv emptyWorld "http://h/a.png" "images" "1.jpg").2 = some Err.http ∧
      (downloadImage offlineEnv emptyWorld "http://h/a.png" "images" "1.jpg").1.fs
        = emptyWorld.fs) ∧
    ¬ (downloadImage (sampleEnv 404) emptyWorld "http://h/a.png" "images" "1.jpg").2 ≠ none :=
  ⟨(downloadImage_error_cases offlineEnv emptyWorld "http://h/a.png" "images" "1.jpg").1 rfl,
   fun h => by
    have := ((downloadImage_error_cases (sampleEnv 404) emptyWorld "http://h/a.png" "images"
      "1.jpg").2 404 [50, 50, 7] false rfl).1 h
    simp [sampleEnv, writeBytes] at this⟩

/-- The function `downloadImage` issues no statement and adds no row. -/
theorem downloadImage_db (env : Env) (w : World) (url directory fileName : String) :
    (downloadImage env w url directory fileName).1.execs = w.execs ∧
    (downloadImage env w url directory fileName).1.rows = w.rows := by
  unfold downloadImage
  cases env.httpGet w.tick url with
  | transportError => exact ⟨rfl, rfl⟩
  | response status body bodyFails =>
    simp only [World.next]
    split
    · exact ⟨rfl, rfl⟩
    · split <;> exact ⟨rfl, rfl⟩

/-- The function `resizeImage` issues no statement and adds no row. -/
theorem resizeImage_db (env : Env) (w : World) (inputPath outputPath : String)
    (width height : Nat) :
    (resizeImage env w inputPath outputPath width height).1.execs = w.execs ∧
    (resizeImage env w inputPath outputPath width height).1.rows = w.rows := by
  unfold resizeImage
  simp only [World.next]
  repeat (first | exact ⟨rfl, rfl⟩ | split)

/-- The function `resizeImage` changes no file but the one at `outputPath`. -/
theorem resizeImage_fs_other (env : Env) (w : World) (inputPath outputPath : String)
    (width height : Nat) (p : String) (hp : p ≠ outputPath) :
    (resizeImage env w inputPath outputPath width height).1.fs p = w.fs p := by
  unfold resizeImage
  simp only [World.next]
  repeat (first | rfl | simp [writeFile, hp] | split)

/-- When `resizeImage` succeeds, its input file existed. -/
theorem resizeImage_ok_input (env : Env) (w : World) (inputPath outputPath : String)
    (width height : Nat)
    (h : (resizeImage env w inputPath outputPath width height).2 = none) :
    (w.fs inputPath).isSome = true := by
  unfold resizeImage at h
  cases hfs : w.fs inputPath with
  | none => simp [hfs] at h
  | some c => rfl

/-- The function `storeImageInDatabase` changes no file. -/
theorem storeImageInDatabase_fs (env : Env) (w : World) (filename imagePath : String) :
    (storeImageInDatabase env w filename imagePath).1.fs = w.fs := by
  unfold storeImageInDatabase
  simp only [World.next]
  repeat (first | rfl | split)

/-- The call `os.Remove path` changes no file but the one at `path`. -/
theorem osRemove_fs_other (env : Env) (w : World) (path p : String) (hp : p ≠ path) :
    (osRemove env w path).1.fs p = w.fs p := by
  unfold osRemove
  simp only [World.next]
  repeat (first | rfl | simp [unlinkFile, hp] | split)

/-- The function `downloadImage` removes no file. -/
theorem downloadImage_fs_keeps (env : Env) (w : World) (url directory fileName : String)
    (p : String) (hp : (w.fs p).isSome = true) :
    ((downloadImage env w url directory fileName).1.fs p).isSome = true := by
  unfold downloadImage
  cases env.httpGet w.tick url with
  | transportError => exact hp
  | response status body bodyFails =>
    simp only [World.next]
    split
    · exact hp
    · by_cases hpath : p = env.join directory fileName
      · split <;> simp [writeFile, hpath]
      · split <;> simpa [writeFile, hpath] using hp

/-- The function `resizeImage` removes no file. -/
theorem resizeImage_fs_keeps (env : Env) (w : World) (inputPath outputPath : String)
    (width height : Nat) (p : String) (hp : (w.fs p).isSome = true) :
    ((resizeImage env w inputPath outputPath width height).1.fs p).isSome = true := by
  by_cases hpath : p = outputPath
  · subst hpath
    unfold resizeImage
    simp only [World.next]
    repeat (first | exact hp | (simp [writeFile]; done) | split)
    all_goals first
      | simp [writeFile]
      | (split <;> simp [writeFile])
  · rw [resizeImage_fs_other env w inputPath outputPath width height p hpath]
    exact hp

/-- When `resizeImage` succeeds, there is a file at its output path. -/
theorem resizeImage_ok_output (env : Env) (w : World) (inputPath outputPath : String)
    (width height : Nat)
    (h : (resizeImage env w inputPath outputPath width height).2 = none) :
    ((resizeImage env w inputPath outputPath width height).1.fs outputPath).isSome = true := by
  unfold resizeImage at h ⊢
  simp only [World.next] at h ⊢
  cases hfs : w.fs inputPath with
  | none => simp [hfs] at h
  | some content =>
    by_cases ho : env.openFails w.tick inputPath = true
    · simp [hfs, ho] at h
    · by_cases hr : env.readFails (w.tick + 1) inputPath = true
      · simp [hfs, ho, hr] at h
      · cases hd : env.decode content with
        | none => simp [hfs, ho, hr, hd] at h
        | some img =>
          by_cases hc : env.createFails (w.tick + 1 + 1) outputPath = true
          · simp [hfs, ho, hr, hd, hc] at h
          · cases he : env.encode (env.resize width height img) with
            | none => simp [hfs, ho, hr, hd, hc, he] at h
            | some jb =>
              by_cases hw : (writeBytes (env.writeLimit (w.tick + 1 + 1 + 1) outputPath)
                  jb).2 = true
              · simp [hfs, ho, hr, hd, hc, he, hw] at h
              · simp [hfs, ho, hr, hd, hc, he, hw, writeFile]

/-- The loop over a queue in two parts is the loop over the first part
followed by the loop over the second. -/
theorem downloadResizeAndStoreWorker_append (env : Env) (rw rh : Nat) (rdir : String) (w : World)
    (pre post : List ImageInfo) :
    downloadResizeAndStoreWorker env rw rh rdir w (pre ++ post) =
      ((downloadResizeAndStoreWorker env rw rh rdir (downloadResizeAndStoreWorker env rw rh rdir w pre).1 post).1,
       (downloadResizeAndStoreWorker env rw rh rdir w pre).2 ++
         (downloadResizeAndStoreWorker env rw rh rdir (downloadResizeAndStoreWorker env rw rh rdir w pre).1 post).2) := by
  induction pre generalizing w with
  | nil => simp [downloadResizeAndStoreWorker]
  | cons it pre ih => simp [downloadResizeAndStoreWorker, ih, List.append_assoc]

/-- Among the calls made for one item exactly one is a call of
`downloadImage`, the one for that item. -/
theorem processItem_downloads (env : Env) (rw rh : Nat) (rdir : String) (w : World)
    (it : ImageInfo) :
    (processItem env rw rh rdir w it).2.filter Call.isDownload = [downloadCall it] := by
  unfold processItem
  simp only
  split
  · simp [downloadCall, Call.isDownload]
  · split <;> simp [downloadCall, resizeCall, storeCall, removeCall, Call.isDownload]

/-- Every call of `os.Remove` made for one item is given the resized path of
that item. -/
theorem processItem_removes (env : Env) (rw rh : Nat) (rdir : String) (w : World)
    (it : ImageInfo) (c : Call) (hc : c ∈ (processItem env rw rh rdir w it).2)
    (p : String) (hp : c.removedPath = some p) : p = env.join rdir it.FileName := by
  unfold processItem at hc
  simp only at hc
  split at hc
  · simp [downloadCall] at hc
    subst hc
    simp [Call.removedPath] at hp
  · split at hc
    · simp [downloadCall, resizeCall] at hc
      rcases hc with hc | hc <;> subst hc <;> simp [Call.removedPath] at hp
    · simp [downloadCall, resizeCall, storeCall, removeCall] at hc
      rcases hc with hc | hc | hc | hc <;> subst hc <;> simp [Call.removedPath] at hp
      exact hp.symm

/-- C6: when the file at `imagePath` can be opened and read and the database
accepts the statement, `storeImageInDatabase` returns no error and issues
exactly one statement, the INSERT into `images`, with the given file name and
the complete content of the file as parameters (and the table gains that
row); when the file is missing, cannot be opened or cannot be read, it returns
an error and issues no statement. -/
theorem storeImageInDatabase_insert (env : Env) (w : World) (filename imagePath : String) :
    (∀ data, w.fs imagePath = some data →
      env.openFails w.tick imagePath = false →
      env.readFails (w.tick + 1) imagePath = false →
      env.execFails (w.tick + 2) filename data = false →
      (storeImageInDatabase env w filename imagePath).2 = none ∧
      (storeImageInDatabase env w filename imagePath).1.execs
        = w.execs ++ [⟨insertQuery, filename, data⟩] ∧
      (storeImageInDatabase env w filename imagePath).1.rows
        = w.rows ++ [(filename, data)]) ∧
    ((w.fs imagePath = none ∨ env.openFails w.tick imagePath = true ∨
        env.readFails (w.tick + 1) imagePath = true) →
      (storeImageInDatabase env w filename imagePath).2 ≠ none ∧
      (storeImageInDatabase env w filename imagePath).1.execs = w.execs ∧
      (storeImageInDatabase env w filename imagePath).1.rows = w.rows) := by
  constructor
  · intro data hfs hopen hread hexec
    simp [storeImageInDatabase, hfs, hopen, hread, hexec, World.next]
  · intro h
    cases hfs : w.fs imagePath with
    | none => simp [storeImageInDatabase, hfs, World.next]
    | some data =>
      rcases h with h | h | h
      · simp [hfs] at h
      · simp [storeImageInDatabase, hfs, h, World.next]
      · by_cases hopen : env.openFails w.tick imagePath = true
        · simp [storeImageInDatabase, hfs, hopen, World.next]
        · simp [storeImageInDatabase, hfs, hopen, h, World.next]

/-- Concrete instances of `storeImageInDatabase_insert`: a readable file and
a missing file. -/
theorem storeImageInDatabase_insert_witness :
    ((storeImageInDatabase (sampleEnv 200) resizedWorld "1.jpg" "resized_images/1.jpg").2 = none ∧
      (storeImageInDatabase (sampleEnv 200) resizedWorld "1.jpg" "resized_images/1.jpg").1.execs
        = resizedWorld.execs ++ [⟨insertQuery, "1.jpg", [100, 100]⟩] ∧
      (storeImageInDatabase (sampleEnv 200) resizedWorld "1.jpg" "resized_images/1.jpg").1.rows
        = resizedWorld.rows ++ [("1.jpg", [100, 100])]) ∧
    ((storeImageInDatabase (sampleEnv 200) emptyWorld "1.jpg" "resized_images/1.jpg").2 ≠ none ∧
      (storeImageInDatabase (sampleEnv 200) emptyWorld "1.jpg" "resized_images/1.jpg").1.execs
        = emptyWorld.execs ∧
      (storeImageInDatabase (sampleEnv 200) emptyWorld "1.jpg" "resized_images/1.jpg").1.rows
        = emptyWorld.rows) :=
  ⟨(storeImageInDatabase_insert (sampleEnv 200) resizedWorld "1.jpg" "resized_images/1.jpg").1
      [100, 100] (by simp [resizedWorld, writeFile]) rfl rfl rfl,
   (storeImageInDatabase_insert (sampleEnv 200) emptyWorld "1.jpg" "resized_images/1.jpg").2
      (Or.inl rfl)⟩

/-- C4: a single worker runs over the queue `pre ++ imgInfo :: post`.  If
`downloadImage` fails for `imgInfo`, the only call made for it is that
download: `resizeImage`, `storeImageInDatabase` and `os.Remove` are not
called, no statement is issued, no row added and no file removed.  If the
download succeeds and `resizeImage` fails, the calls made for it are the
download and the resize: `storeImageInDatabase` and `os.Remove` are not
called, no statement is issued, no row added and no file removed.  Whatever
happened to `imgInfo`, the loop goes on with `post` from the world the item
left behind, and over the whole queue the calls of `downloadImage` are exactly
one per item, in queue order. -/
theorem worker_failure_isolation (env : Env) (rw rh : Nat) (rdir : String) (w : World)
    (pre post : List ImageInfo) (imgInfo : ImageInfo) :
    let w1 := (downloadResizeAndStoreWorker env rw rh rdir w pre).1
    let item := processItem env rw rh rdir w1 imgInfo
    let dl := downloadImage env w1 imgInfo.URL imgInfo.Directory imgInfo.FileName
    let rs := resizeImage env dl.1 (env.join imgInfo.Directory imgInfo.FileName)
      (env.join rdir imgInfo.FileName) rw rh
    (dl.2 ≠ none →
      item.2 = [downloadCall imgInfo] ∧ item.1.execs = w1.execs ∧ item.1.rows = w1.rows ∧
      ∀ p, (w1.fs p).isSome = true → (item.1.fs p).isSome = true) ∧
    (dl.2 = none → rs.2 ≠ none →
      item.2 = [downloadCall imgInfo, resizeCall env rw rh rdir imgInfo] ∧
      item.1.execs = w1.execs ∧ item.1.rows = w1.rows ∧
      ∀ p, (w1.fs p).isSome = true → (item.1.fs p).isSome = true) ∧
    (downloadResizeAndStoreWorker env rw rh rdir w (pre ++ imgInfo :: post)).1
      = (downloadResizeAndStoreWorker env rw rh rdir item.1 post).1 ∧
    (downloadResizeAndStoreWorker env rw rh rdir w (pre ++ imgInfo :: post)).2
      = (downloadResizeAndStoreWorker env rw rh rdir w pre).2 ++ item.2
          ++ (downloadResizeAndStoreWorker env rw rh rdir item.1 post).2 ∧
    (downloadResizeAndStoreWorker env rw rh rdir w (pre ++ imgInfo :: post)).2.filter Call.isDownload
      = (pre ++ imgInfo :: post).map downloadCall := by
  intro w1 item dl rs
  refine ⟨?_, ?_, ?_, ?_, ?_⟩
  · intro hdl
    have hdb := downloadImage_db env w1 imgInfo.URL imgInfo.Directory imgInfo.FileName
    cases h : dl.2 with
    | none => exact absurd h hdl
    | some e =>
      have h2 : (downloadImage env w1 imgInfo.URL imgInfo.Directory imgInfo.FileName).2
          = some e := h
      simp only [item, processItem, h2, World.println]
      exact ⟨trivial, hdb.1, hdb.2, fun p hp =>
        downloadImage_fs_keeps env w1 imgInfo.URL imgInfo.Directory imgInfo.FileName p hp⟩
  · intro hdl hrs
    have hdb := downloadImage_db env w1 imgInfo.URL imgInfo.Directory imgInfo.FileName
    have hrb := resizeImage_db env dl.1 (env.join imgInfo.Directory imgInfo.FileName)
      (env.join rdir imgInfo.FileName) rw rh
    have h1 : (downloadImage env w1 imgInfo.URL imgInfo.Directory imgInfo.FileName).2
        = none := hdl
    cases h : rs.2 with
    | none => exact absurd h hrs
    | some e =>
      have h2 : (resizeImage env
          (downloadImage env w1 imgInfo.URL imgInfo.Directory imgInfo.FileName).1
          (env.join imgInfo.Directory imgInfo.FileName)
          (env.join rdir imgInfo.FileName) rw rh).2 = some e := h
      simp only [item, processItem, h1, h2, World.println]
      exact ⟨trivial, hrb.1.trans hdb.1, hrb.2.trans hdb.2, fun p hp =>
        resizeImage_fs_keeps env _ _ _ rw rh p
          (downloadImage_fs_keeps env w1 imgInfo.URL imgInfo.Directory imgInfo.FileName p hp)⟩
  · rw [downloadResizeAndStoreWorker_append]
    simp [downloadResizeAndStoreWorker, item, w1]
  · rw [downloadResizeAndStoreWorker_append]
    simp [downloadResizeAndStoreWorker, item, w1, List.append_assoc]
  · generalize pre ++ imgInfo :: post = queue
    clear item dl rs w1
    induction queue generalizing w with
    | nil => simp [downloadResizeAndStoreWorker]
    | cons it queue ih =>
      simp only [downloadResizeAndStoreWorker, List.filter_append, List.map_cons, processItem_downloads, ih]
      rfl

/-- A concrete instance of `worker_failure_isolation`: the queue holds an
item with an unreachable URL and then an item that succeeds. -/
theorem worker_failure_isolation_witness :
    ((processItem flakyEnv 100 100 "resized_images" emptyWorld badItem).2
        = [downloadCall badItem] ∧
      (processItem flakyEnv 100 100 "resized_images" emptyWorld badItem).1.execs = [] ∧
      (processItem flakyEnv 100 100 "resized_images" emptyWorld badItem).1.rows = []) ∧
    (downloadResizeAndStoreWorker flakyEnv 100 100 "resized_images" emptyWorld [badItem, goodItem]).2
      = [downloadCall badItem, downloadCall goodItem,
         resizeCall flakyEnv 100 100 "resized_images" goodItem,
         storeCall flakyEnv "resized_images" goodItem,
         removeCall flakyEnv "resized_images" goodItem] ∧
    (downloadResizeAndStoreWorker flakyEnv 100 100 "resized_images" emptyWorld [badItem, goodItem]).1.rows
      = [("2.jpg", [100, 100])] := by
  have h := worker_failure_isolation flakyEnv 100 100 "resized_images" emptyWorld []
    [goodItem] badItem
  have h1 := h.1 (by decide)
  refine ⟨⟨h1.1, h1.2.1, h1.2.2.1⟩, ?_, ?_⟩
  · decide
  · decide

/-- Every call of `os.Remove` made by the worker over a queue is given the
resized path of an item of the queue. -/
theorem downloadResizeAndStoreWorker_removes (env : Env) (rw rh : Nat) (rdir : String) (w : World)
    (queue : List ImageInfo) (c : Call) (hc : c ∈ (downloadResizeAndStoreWorker env rw rh rdir w queue).2)
    (p : String) (hp : c.removedPath = some p) :
    ∃ it ∈ queue, p = env.join rdir it.FileName := by
  induction queue generalizing w with
  | nil => simp [downloadResizeAndStoreWorker] at hc
  | cons it queue ih =>
    simp only [downloadResizeAndStoreWorker, List.mem_append] at hc
    rcases hc with hc | hc
    · exact ⟨it, List.mem_cons_self _ _, processItem_removes env rw rh rdir w it c hc p hp⟩
    · obtain ⟨it2, hmem, heq⟩ := ih _ hc
      exact ⟨it2, List.mem_cons_of_mem _ hmem, heq⟩

/-- For an item whose download and resize both succeed, the calls made are
download, resize, store and then `os.Remove` of the resized path, whether the
store succeeded or failed; every call of `os.Remove` made over the queue is
given the resized path of an item of the queue; when the raw path differs from
the resized path, the raw file is there after the item, with the content the
download gave it; when `os.Remove` is not refused, the resized file is gone
after the item; and the loop goes on with the rest of the queue. -/
theorem processItem_cleanup (env : Env) (rw rh : Nat) (rdir : String) (w : World)
    (imgInfo : ImageInfo) (post : List ImageInfo)
    (hdl : (downloadImage env w imgInfo.URL imgInfo.Directory imgInfo.FileName).2 = none)
    (hrs : (resizeImage env
      (downloadImage env w imgInfo.URL imgInfo.Directory imgInfo.FileName).1
      (env.join imgInfo.Directory imgInfo.FileName) (env.join rdir imgInfo.FileName)
      rw rh).2 = none) :
    (processItem env rw rh rdir w imgInfo).2
      = [downloadCall imgInfo, resizeCall env rw rh rdir imgInfo,
         storeCall env rdir imgInfo, .remove (env.join rdir imgInfo.FileName)] ∧
    (∀ c ∈ (downloadResizeAndStoreWorker env rw rh rdir w (imgInfo :: post)).2, ∀ p, c.removedPath = some p →
      ∃ it ∈ imgInfo :: post, p = env.join rdir it.FileName) ∧
    (env.join imgInfo.Directory imgInfo.FileName ≠ env.join rdir imgInfo.FileName →
      (processItem env rw rh rdir w imgInfo).1.fs (env.join imgInfo.Directory imgInfo.FileName)
        = (downloadImage env w imgInfo.URL imgInfo.Directory imgInfo.FileName).1.fs
            (env.join imgInfo.Directory imgInfo.FileName) ∧
      ((processItem env rw rh rdir w imgInfo).1.fs
        (env.join imgInfo.Directory imgInfo.FileName)).isSome = true) ∧
    ((∀ t, env.removeFails t (env.join rdir imgInfo.FileName) = false) →
      (processItem env rw rh rdir w imgInfo).1.fs (env.join rdir imgInfo.FileName) = none) ∧
    (downloadResizeAndStoreWorker env rw rh rdir w (imgInfo :: post)).1
      = (downloadResizeAndStoreWorker env rw rh rdir (processItem env rw rh rdir w imgInfo).1 post).1 ∧
    (downloadResizeAndStoreWorker env rw rh rdir w (imgInfo :: post)).2
      = (processItem env rw rh rdir w imgInfo).2
          ++ (downloadResizeAndStoreWorker env rw rh rdir (processItem env rw rh rdir w imgInfo).1 post).2 := by
  have hfs : env.join imgInfo.Directory imgInfo.FileName ≠ env.join rdir imgInfo.FileName →
      (processItem env rw rh rdir w imgInfo).1.fs (env.join imgInfo.Directory imgInfo.FileName)
        = (downloadImage env w imgInfo.URL imgInfo.Directory imgInfo.FileName).1.fs
            (env.join imgInfo.Directory imgInfo.FileName) := by
    intro hne
    simp only [processItem, hdl, hrs]
    have h4 : ∀ w3 : World,
        (match (osRemove env w3 (env.join rdir imgInfo.FileName)).2 with
          | some _ => (osRemove env w3 (env.join rdir imgInfo.FileName)).1.println
              "Error deleting resized file:"
          | none => (osRemove env w3 (env.join rdir imgInfo.FileName)).1).fs
            (env.join imgInfo.Directory imgInfo.FileName)
          = w3.fs (env.join imgInfo.Directory imgInfo.FileName) := by
      intro w3
      have := osRemove_fs_other env w3 (env.join rdir imgInfo.FileName) _ hne
      split <;> simpa [World.println] using this
    rw [h4]
    have h3 : ∀ w2 : World,
        (match (storeImageInDatabase env w2 imgInfo.FileName
              (env.join rdir imgInfo.FileName)).2 with
          | some _ => (storeImageInDatabase env w2 imgInfo.FileName
              (env.join rdir imgInfo.FileName)).1.println "Error storing image in the database:"
          | none => (storeImageInDatabase env w2 imgInfo.FileName
              (env.join rdir imgInfo.FileName)).1).fs = w2.fs := by
      intro w2
      have := storeImageInDatabase_fs env w2 imgInfo.FileName (env.join rdir imgInfo.FileName)
      split <;> simpa [World.println] using this
    rw [h3]
    exact resizeImage_fs_other env _ _ _ rw rh _ hne
  refine ⟨?_, ?_, ?_, ?_, ?_, ?_⟩
  · simp [processItem, hdl, hrs, removeCall]
  · intro c hc p hp
    exact downloadResizeAndStoreWorker_removes env rw rh rdir w (imgInfo :: post) c hc p hp
  · intro hne
    refine ⟨hfs hne, ?_⟩
    rw [hfs hne]
    exact resizeImage_ok_input env _ _ _ rw rh hrs
  · intro hrm
    simp only [processItem, hdl, hrs]
    have hout := resizeImage_ok_output env _ _ _ rw rh hrs
    have h3 : ∀ w2 : World,
        (match (storeImageInDatabase env w2 imgInfo.FileName
              (env.join rdir imgInfo.FileName)).2 with
          | some _ => (storeImageInDatabase env w2 imgInfo.FileName
              (env.join rdir imgInfo.FileName)).1.println "Error storing image in the database:"
          | none => (storeImageInDatabase env w2 imgInfo.FileName
              (env.join rdir imgInfo.FileName)).1).fs = w2.fs := by
      intro w2
      have := storeImageInDatabase_fs env w2 imgInfo.FileName (env.join rdir imgInfo.FileName)
      split <;> simpa [World.println] using this
    have h4 : ∀ w3 : World, (w3.fs (env.join rdir imgInfo.FileName)).isSome = true →
        (match (osRemove env w3 (env.join rdir imgInfo.FileName)).2 with
          | some _ => (osRemove env w3 (env.join rdir imgInfo.FileName)).1.println
              "Error deleting resized file:"
          | none => (osRemove env w3 (env.join rdir imgInfo.FileName)).1).fs
            (env.join rdir imgInfo.FileName) = none := by
      intro w3 hex
      cases hw3 : w3.fs (env.join rdir imgInfo.FileName) with
      | none => simp [hw3] at hex
      | some c => simp [osRemove, hw3, hrm, World.next, unlinkFile]
    apply h4
    rw [h3]
    exact hout
  · simp [downloadResizeAndStoreWorker]
  · simp [downloadResizeAndStoreWorker]

/-- The loop body removes no file but the one at the resized path of its
item. -/
theorem processItem_fs_keeps (env : Env) (rw rh : Nat) (rdir : String) (w : World)
    (it : ImageInfo) (p : String) (hp : p ≠ env.join rdir it.FileName)
    (hw : (w.fs p).isSome = true) :
    ((processItem env rw rh rdir w it).1.fs p).isSome = true := by
  have h1 := downloadImage_fs_keeps env w it.URL it.Directory it.FileName p hw
  have h2 := resizeImage_fs_keeps env (downloadImage env w it.URL it.Directory it.FileName).1
    (env.join it.Directory it.FileName) (env.join rdir it.FileName) rw rh p h1
  unfold processItem
  simp only
  split
  · simpa [World.println] using h1
  · split
    · simpa [World.println] using h2
    · have h3 : ∀ w2 : World,
          (match (storeImageInDatabase env w2 it.FileName (env.join rdir it.FileName)).2 with
            | some _ => (storeImageInDatabase env w2 it.FileName
                (env.join rdir it.FileName)).1.println "Error storing image in the database:"
            | none => (storeImageInDatabase env w2 it.FileName
                (env.join rdir it.FileName)).1).fs = w2.fs := by
        intro w2
        have := storeImageInDatabase_fs env w2 it.FileName (env.join rdir it.FileName)
        split <;> simpa [World.println] using this
      have h4 : ∀ w3 : World,
          (match (osRemove env w3 (env.join rdir it.FileName)).2 with
            | some _ => (osRemove env w3 (env.join rdir it.FileName)).1.println
                "Error deleting resized file:"
            | none => (osRemove env w3 (env.join rdir it.FileName)).1).fs p = w3.fs p := by
        intro w3
        have := osRemove_fs_other env w3 (env.join rdir it.FileName) p hp
        split <;> simpa [World.println] using this
      rw [h4, h3]
      exact h2

/-- The worker removes no file but those at the resized paths of the items of
its queue. -/
theorem downloadResizeAndStoreWorker_fs_keeps (env : Env) (rw rh : Nat) (rdir : String)
    (w : World) (queue : List ImageInfo) (p : String)
    (hp : ∀ it ∈ queue, p ≠ env.join rdir it.FileName) (hw : (w.fs p).isSome = true) :
    ((downloadResizeAndStoreWorker env rw rh rdir w queue).1.fs p).isSome = true := by
  induction queue generalizing w with
  | nil => simpa [downloadResizeAndStoreWorker] using hw
  | cons it queue ih =>
    simp only [downloadResizeAndStoreWorker]
    exact ih _ (fun it2 h2 => hp it2 (List.mem_cons_of_mem _ h2))
      (processItem_fs_keeps env rw rh rdir w it p (hp it (List.mem_cons_self _ _)) hw)

/-- Starting a worker leaves the items in flight as they are. -/
theorem busyItems_append_recv (ws : List WorkerPc) :
    busyItems (ws ++ [.recv]) = busyItems ws := by
  induction ws with
  | nil => rfl
  | cons a ws ih => cases a <;> simp [busyItems, ih]

/-- Starting a worker leaves the number of exited workers as it is. -/
theorem exitedCount_append_recv (ws : List WorkerPc) :
    exitedCount (ws ++ [.recv]) = exitedCount ws := by
  induction ws with
  | nil => rfl
  | cons a ws ih => cases a <;> simp [exitedCount, ih]

/-- Starting a worker adds its exit to the steps of the workers. -/
theorem workerSteps_append_recv (ws : List WorkerPc) :
    workerSteps (ws ++ [.recv]) = workerSteps ws + 1 := by
  induction ws with
  | nil => rfl
  | cons a ws ih => cases a <;> simp [workerSteps, ih]

/-- A receive puts the received item among the items in flight. -/
theorem busyItems_set_busy (ws : List WorkerPc) (i : Nat) (it : ImageInfo)
    (h : ws[i]? = some .recv) :
    (busyItems (ws.set i (.busy it))).Perm (it :: busyItems ws) := by
  induction ws generalizing i with
  | nil => simp at h
  | cons a ws ih =>
    cases i with
    | zero =>
      simp at h
      subst h
      simp [busyItems]
    | succ i =>
      simp at h
      cases a with
      | recv => simpa [busyItems] using ih i h
      | exited => simpa [busyItems] using ih i h
      | busy b =>
        simp only [List.set_cons_succ, busyItems]
        exact ((ih i h).cons b).trans (List.Perm.swap it b _)

/-- A run of the loop body takes its item out of the items in flight. -/
theorem busyItems_set_recv (ws : List WorkerPc) (i : Nat) (it : ImageInfo)
    (h : ws[i]? = some (.busy it)) :
    (it :: busyItems (ws.set i .recv)).Perm (busyItems ws) := by
  induction ws generalizing i with
  | nil => simp at h
  | cons a ws ih =>
    cases i with
    | zero =>
      simp at h
      subst h
      simp [busyItems]
    | succ i =>
      simp at h
      cases a with
      | recv => simpa [busyItems] using ih i h
      | exited => simpa [busyItems] using ih i h
      | busy b =>
        simp only [List.set_cons_succ, busyItems]
        exact (List.Perm.swap b it _).trans ((ih i h).cons b)

/-- An exit leaves the items in flight as they are. -/
theorem busyItems_set_exited (ws : List WorkerPc) (i : Nat) (h : ws[i]? = some .recv) :
    busyItems (ws.set i .exited) = busyItems ws := by
  induction ws generalizing i with
  | nil => simp at h
  | cons a ws ih =>
    cases i with
    | zero =>
      simp at h
      subst h
      simp [busyItems]
    | succ i =>
      simp at h
      cases a <;> simp [busyItems, ih i h]

/-- A receive leaves the number of exited workers as it is. -/
theorem exitedCount_set_busy (ws : List WorkerPc) (i : Nat) (it : ImageInfo)
    (h : ws[i]? = some .recv) : exitedCount (ws.set i (.busy it)) = exitedCount ws := by
  induction ws generalizing i with
  | nil => simp at h
  | cons a ws ih =>
    cases i with
    | zero =>
      simp at h
      subst h
      simp [exitedCount]
    | succ i =>
      simp at h
      cases a <;> simp [exitedCount, ih i h]

/-- A run of the loop body leaves the number of exited workers as it is. -/
theorem exitedCount_set_recv (ws : List WorkerPc) (i : Nat) (it : ImageInfo)
    (h : ws[i]? = some (.busy it)) : exitedCount (ws.set i .recv) = exitedCount ws := by
  induction ws generalizing i with
  | nil => simp at h
  | cons a ws ih =>
    cases i with
    | zero =>
      simp at h
      subst h
      simp [exitedCount]
    | succ i =>
      simp at h
      cases a <;> simp [exitedCount, ih i h]

/-- An exit adds one to the number of exited workers. -/
theorem exitedCount_set_exited (ws : List WorkerPc) (i : Nat) (h : ws[i]? = some .recv) :
    exitedCount (ws.set i .exited) = exitedCount ws + 1 := by
  induction ws generalizing i with
  | nil => simp at h
  | cons a ws ih =>
    cases i with
    | zero =>
      simp at h
      subst h
      simp [exitedCount]
    | succ i =>
      simp at h
      cases a <;> simp [exitedCount, ih i h]

/-- No more workers have exited than were started, and a worker that has not
exited keeps the count below the number of workers. -/
theorem exitedCount_lt (ws : List WorkerPc) (i : Nat) (pc : WorkerPc) (h : ws[i]? = some pc)
    (hpc : pc ≠ .exited) : exitedCount ws < ws.length := by
  have hle : ∀ l : List WorkerPc, exitedCount l ≤ l.length := by
    intro l
    induction l with
    | nil => simp [exitedCount]
    | cons a l ih => cases a <;> simp [exitedCount] <;> omega
  induction ws generalizing i with
  | nil => simp at h
  | cons a ws ih =>
    cases i with
    | zero =>
      simp at h
      subst h
      have := hle ws
      cases a <;> simp [exitedCount] at hpc ⊢ <;> omega
    | succ i =>
      simp at h
      have := ih i h
      cases a <;> simp [exitedCount] <;> omega

/-- When every worker has exited, no item is in flight. -/
theorem busyItems_of_all_exited (ws : List WorkerPc) (h : exitedCount ws = ws.length) :
    busyItems ws = [] := by
  have hle : ∀ l : List WorkerPc, exitedCount l ≤ l.length := by
    intro l
    induction l with
    | nil => simp [exitedCount]
    | cons a l ih => cases a <;> simp [exitedCount] <;> omega
  induction ws with
  | nil => rfl
  | cons a ws ih =>
    have := hle ws
    cases a with
    | exited =>
      simp [exitedCount] at h
      simp [busyItems, ih h]
    | recv => simp [exitedCount] at h; omega
    | busy b => simp [exitedCount] at h; omega

/-- When some worker has not exited, some worker is at its receive or has an
item to run the loop body for. -/
theorem exists_running (ws : List WorkerPc) (h : exitedCount ws < ws.length) :
    ∃ i : Nat, ws[i]? = some WorkerPc.recv ∨ ∃ it, ws[i]? = some (WorkerPc.busy it) := by
  induction ws with
  | nil => simp at h
  | cons a ws ih =>
    cases a with
    | recv => exact ⟨0, Or.inl (by simp)⟩
    | busy b => exact ⟨0, Or.inr ⟨b, by simp⟩⟩
    | exited =>
      simp [exitedCount] at h
      obtain ⟨i, hi⟩ := ih h
      exact ⟨i + 1, by simpa using hi⟩

/-- The invariant holds when the dispatch block starts. -/
theorem inv_init (env : Env) (cfg : Config) (w : World) (draws : Nat) (urls : List String) :
    Inv env cfg (producerItems env cfg.DownloadDir draws urls) (initState w draws urls) := by
  constructor <;> simp [initState, pendingUrls, busyItems, exitedCount]

/-- A step of main keeps the invariant. -/
theorem inv_stepMain (env : Env) (cfg : Config) (items : List ImageInfo) (st st2 : State)
    (hP : 0 ≤ cfg.MaxImageWorkers) (h : Inv env cfg items st)
    (hs : stepMain env cfg st = some st2) : Inv env cfg items st2 := by
  rcases st with ⟨world, urls, main, workers, chan, cap, closed, wg, draws, panicked,
    attempts, calls⟩
  obtain ⟨hacct, halive, hcnt, hclosing, hdrained, hwaited, hroom, hids⟩ := h
  simp only at hacct halive hcnt hclosing hdrained hwaited hroom hids
  cases main with
  | add =>
    simp only [pendingUrls] at hacct hroom
    obtain ⟨hwg, hws⟩ := hcnt
    subst hwg hws
    have hneg : ¬ (0 + cfg.MaxImageWorkers < 0) := by omega
    simp only [stepMain, hneg, if_false, Option.some.injEq] at hs
    subst hs
    constructor <;> simp_all [pendingUrls, exitedCount]
  | spawn i =>
    simp only [pendingUrls] at hacct hroom
    obtain ⟨hwg, hlen, hle⟩ := hcnt
    simp only [stepMain] at hs
    have hcl : closed = false := by
      cases closed with
      | false => rfl
      | true => simp at hclosing
    have hex : exitedCount workers = 0 := by
      by_contra hne
      have := (hdrained (Nat.pos_of_ne_zero hne)).1
      simp [hcl] at this
    split at hs
    · simp only [Option.some.injEq] at hs
      subst hs
      constructor
      · simpa [pendingUrls, busyItems_append_recv] using hacct
      · simpa using halive
      · simp only [exitedCount_append_recv, List.length_append, List.length_singleton]
        refine ⟨hwg, by omega, by omega⟩
      · simp [hcl]
      · simp [exitedCount_append_recv, hex]
      · simp
      · simpa [pendingUrls] using hroom
      · intro a ha
        have := hids a ha
        simp only [List.length_append, List.length_singleton]
        omega
    · simp only [Option.some.injEq] at hs
      subst hs
      constructor
      · simpa [pendingUrls] using hacct
      · simpa using halive
      · simp only
        refine ⟨hwg, by omega⟩
      · simp [hcl]
      · simp [hex]
      · simp
      · simpa [pendingUrls] using hroom
      · exact hids
  | push rest =>
    simp only [pendingUrls] at hacct hroom
    have hcl : closed = false := by
      cases closed with
      | false => rfl
      | true => simp at hclosing
    have hex : exitedCount workers = 0 := by
      by_contra hne
      have := (hdrained (Nat.pos_of_ne_zero hne)).1
      simp [hcl] at this
    cases rest with
    | nil =>
      simp only [stepMain, Option.some.injEq] at hs
      subst hs
      constructor
      · simpa [pendingUrls, producerItems] using hacct
      · simpa using halive
      · exact hcnt
      · simp [hcl]
      · simp [hex]
      · simp
      · simpa [pendingUrls] using hroom
      · exact hids
    | cons url rest =>
      simp only [stepMain] at hs
      split at hs
      · simp only [Option.some.injEq] at hs
        subst hs
        constructor
        · simpa [pendingUrls, producerItems, List.append_assoc] using hacct
        · simpa using halive
        · exact hcnt
        · simp [hcl]
        · simp [hex]
        · simp
        · simp only [pendingUrls, List.length_append, List.length_singleton]
          simp only [List.length_cons] at hroom
          omega
        · exact hids
      · simp at hs
  | close =>
    simp only [pendingUrls] at hacct hroom
    have hcl : closed = false := by
      cases closed with
      | false => rfl
      | true => simp at hclosing
    have hex : exitedCount workers = 0 := by
      by_contra hne
      have := (hdrained (Nat.pos_of_ne_zero hne)).1
      simp [hcl] at this
    simp only [stepMain, Option.some.injEq] at hs
    subst hs
    constructor
    · simpa [pendingUrls] using hacct
    · simpa using halive
    · exact hcnt
    · simp
    · simp [hex]
    · simp
    · simpa [pendingUrls] using hroom
    · exact hids
  | wait =>
    simp only [pendingUrls] at hacct hroom
    simp only [stepMain] at hs
    split at hs
    · rename_i hz
      simp only [Option.some.injEq] at hs
      subst hs
      constructor
      · simpa [pendingUrls] using hacct
      · simpa using halive
      · exact hcnt
      · simpa using hclosing
      · exact hdrained
      · intro _
        exact hz
      · simpa [pendingUrls] using hroom
      · exact hids
    · simp at hs
  | done => simp [stepMain] at hs

/-- A step of a worker keeps the invariant. -/
theorem inv_stepWorker (env : Env) (cfg : Config) (items : List ImageInfo) (st st2 : State)
    (i : Nat) (h : Inv env cfg items st)
    (hs : stepWorker env cfg st i = some st2) : Inv env cfg items st2 := by
  rcases st with ⟨world, urls, main, workers, chan, cap, closed, wg, draws, panicked,
    attempts, calls⟩
  obtain ⟨hacct, halive, hcnt, hclosing, hdrained, hwaited, hroom, hids⟩ := h
  simp only at hacct halive hcnt hclosing hdrained hwaited hroom hids
  simp only [stepWorker] at hs
  cases hw : workers[i]? with
  | none => simp [hw] at hs
  | some pc =>
    have hi : i < workers.length := by
      by_contra hge
      have : workers[i]? = none := List.getElem?_eq_none (by omega)
      simp [this] at hw
    cases pc with
    | recv =>
      simp only [hw] at hs
      cases chan with
      | cons it rest =>
        simp only [Option.some.injEq] at hs
        subst hs
        have hex : exitedCount workers = 0 := by
          by_contra hne
          have := (hdrained (Nat.pos_of_ne_zero hne)).2
          simp at this
        constructor
        · simp only [pendingUrls] at hacct ⊢
          refine List.Perm.trans ?_ hacct
          have hb := busyItems_set_busy workers i it hw
          have h1 : (busyItems (workers.set i (.busy it)) ++ rest).Perm
              (busyItems workers ++ it :: rest) :=
            (hb.append_right rest).trans (by simpa using (List.perm_middle).symm)
          simpa [List.append_assoc] using
            ((h1.append_left (attempts.map Prod.snd)).append_right _)
        · simpa using halive
        · simp only [exitedCount_set_busy workers i it hw, List.length_set]
          cases main <;> first
            | exact hcnt
            | (obtain ⟨_, hws⟩ := hcnt; subst hws; simp at hi)
        · simpa using hclosing
        · simp [exitedCount_set_busy workers i it hw, hex]
        · simpa using hwaited
        · simp only [pendingUrls, List.length_cons] at hroom ⊢
          omega
        · simpa using hids
      | nil =>
        cases closed with
        | false => simp at hs
        | true =>
          have hlt := exitedCount_lt workers i .recv hw (by simp)
          have hmain : main = .wait ∨ main = .done := by simpa using hclosing
          have hcnt2 : wg = cfg.MaxImageWorkers - exitedCount workers ∧
              (workers.length : Int) = cfg.MaxImageWorkers := by
            rcases hmain with hm | hm <;> subst hm <;> exact hcnt
          have hm : main = .wait := by
            rcases hmain with hm | hm
            · exact hm
            · have := hwaited hm
              omega
          subst hm
          have hneg : ¬ (wg - 1 < 0) := by omega
          simp only [if_true, hneg, if_false, Option.some.injEq] at hs
          subst hs
          constructor
          · simpa [pendingUrls, busyItems_set_exited workers i hw] using hacct
          · simpa using halive
          · simp only [exitedCount_set_exited workers i hw, List.length_set]
            refine ⟨by push_cast; omega, hcnt2.2⟩
          · simp
          · simp
          · simp
          · simp [pendingUrls]
          · simpa using hids
    | busy it =>
      simp only [hw, Option.some.injEq] at hs
      subst hs
      constructor
      · simp only [pendingUrls] at hacct ⊢
        refine List.Perm.trans ?_ hacct
        have hb := busyItems_set_recv workers i it hw
        simpa [List.append_assoc] using
          (((hb.append_left (attempts.map Prod.snd)).append_right chan).append_right _)
      · simpa using halive
      · simp only [exitedCount_set_recv workers i it hw, List.length_set]
        cases main <;> first
          | exact hcnt
          | (obtain ⟨_, hws⟩ := hcnt; subst hws; simp at hi)
      · simpa using hclosing
      · simpa [exitedCount_set_recv workers i it hw] using hdrained
      · simpa using hwaited
      · simpa [pendingUrls] using hroom
      · intro a ha
        simp only [List.mem_append, List.mem_singleton] at ha
        simp only [List.length_set]
        rcases ha with ha | ha
        · exact hids a ha
        · subst ha
          exact hi
    | exited => simp [hw] at hs

/-- Every state a schedule leads to satisfies the invariant. -/
theorem inv_run (env : Env) (cfg : Config) (items : List ImageInfo)
    (hP : 0 ≤ cfg.MaxImageWorkers) (sched : List Tid) (st st2 : State)
    (h : Inv env cfg items st) (hr : run env cfg st sched = some st2) :
    Inv env cfg items st2 := by
  induction sched generalizing st with
  | nil =>
    simp only [run, Option.some.injEq] at hr
    subst hr
    exact h
  | cons t sched ih =>
    simp only [run] at hr
    cases hs : step env cfg st t with
    | none => simp [hs] at hr
    | some st1 =>
      simp only [hs] at hr
      refine ih st1 ?_ hr
      unfold step at hs
      split at hs
      · simp at hs
      · cases t with
        | main => exact inv_stepMain env cfg items st st1 hP h hs
        | worker i => exact inv_stepWorker env cfg items st st1 i h hs

/-- No more workers have exited than were started. -/
theorem exitedCount_le (ws : List WorkerPc) : exitedCount ws ≤ ws.length := by
  induction ws with
  | nil => simp [exitedCount]
  | cons a ws ih => cases a <;> simp [exitedCount] <;> omega

/-- A receive leaves the worker with one more step: the loop body. -/
theorem workerSteps_set_busy (ws : List WorkerPc) (i : Nat) (it : ImageInfo)
    (h : ws[i]? = some .recv) : workerSteps (ws.set i (.busy it)) = workerSteps ws + 1 := by
  induction ws generalizing i with
  | nil => simp at h
  | cons a ws ih =>
    cases i with
    | zero =>
      simp at h
      subst h
      simp [workerSteps]
    | succ i =>
      simp at h
      cases a <;> simp [workerSteps, ih i h]

/-- A run of the loop body is one step of the worker. -/
theorem workerSteps_set_recv (ws : List WorkerPc) (i : Nat) (it : ImageInfo)
    (h : ws[i]? = some (.busy it)) : workerSteps (ws.set i .recv) + 1 = workerSteps ws := by
  induction ws generalizing i with
  | nil => simp at h
  | cons a ws ih =>
    cases i with
    | zero =>
      simp at h
      subst h
      simp [workerSteps]
    | succ i =>
      simp at h
      cases a <;> simp [workerSteps] <;> have := ih i h <;> omega

/-- The exit is the last step of a worker. -/
theorem workerSteps_set_exited (ws : List WorkerPc) (i : Nat) (h : ws[i]? = some .recv) :
    workerSteps (ws.set i .exited) + 1 = workerSteps ws := by
  induction ws generalizing i with
  | nil => simp at h
  | cons a ws ih =>
    cases i with
    | zero =>
      simp at h
      subst h
      simp [workerSteps]
    | succ i =>
      simp at h
      cases a <;> simp [workerSteps] <;> have := ih i h <;> omega

/-- Every step uses up one of the steps that are left. -/
theorem stepsLeft_step (env : Env) (cfg : Config) (st st2 : State) (t : Tid)
    (hs : step env cfg st t = some st2) : stepsLeft cfg st2 + 1 ≤ stepsLeft cfg st := by
  rcases st with ⟨world, urls, main, workers, chan, cap, closed, wg, draws, panicked,
    attempts, calls⟩
  unfold step at hs
  cases panicked with
  | true => simp at hs
  | false =>
    simp only [Bool.false_eq_true, if_false] at hs
    cases t with
    | main =>
      simp only at hs
      cases main with
      | add =>
        simp only [stepMain] at hs
        split at hs <;> simp only [Option.some.injEq] at hs <;> subst hs <;>
          simp [stepsLeft, mainSteps, unstarted, pendingUrls] <;> omega
      | spawn i =>
        simp only [stepMain] at hs
        split at hs <;> simp only [Option.some.injEq] at hs <;> subst hs <;>
          simp [stepsLeft, mainSteps, unstarted, pendingUrls, workerSteps_append_recv] <;> omega
      | push rest =>
        cases rest with
        | nil =>
          simp only [stepMain, Option.some.injEq] at hs
          subst hs
          simp [stepsLeft, mainSteps, unstarted, pendingUrls]
          omega
        | cons url rest =>
          simp only [stepMain] at hs
          split at hs
          · simp only [Option.some.injEq] at hs
            subst hs
            simp [stepsLeft, mainSteps, unstarted, pendingUrls]
            omega
          · simp at hs
      | close =>
        simp only [stepMain, Option.some.injEq] at hs
        subst hs
        simp [stepsLeft, mainSteps, unstarted, pendingUrls]
        omega
      | wait =>
        simp only [stepMain] at hs
        split at hs
        · simp only [Option.some.injEq] at hs
          subst hs
          simp [stepsLeft, mainSteps, unstarted, pendingUrls]
          omega
        · simp at hs
      | done => simp [stepMain] at hs
    | worker i =>
      simp only [stepWorker] at hs
      cases hw : workers[i]? with
      | none => simp [hw] at hs
      | some pc =>
        cases pc with
        | recv =>
          simp only [hw] at hs
          cases chan with
          | cons it rest =>
            simp only [Option.some.injEq] at hs
            subst hs
            have := workerSteps_set_busy workers i it hw
            simp only [stepsLeft, mainSteps, unstarted, pendingUrls, this, List.length_cons]
            cases main <;> simp <;> omega
          | nil =>
            cases closed with
            | false => simp at hs
            | true =>
              simp only [if_true] at hs
              have := workerSteps_set_exited workers i hw
              split at hs <;> simp only [Option.some.injEq] at hs <;> subst hs <;>
                simp only [stepsLeft, mainSteps, unstarted, pendingUrls] <;>
                cases main <;> simp <;> omega
        | busy it =>
          simp only [hw, Option.some.injEq] at hs
          subst hs
          have := workerSteps_set_recv workers i it hw
          simp only [stepsLeft, mainSteps, unstarted, pendingUrls]
          cases main <;> simp <;> omega
        | exited => simp [hw] at hs

/-- A schedule is never longer than the number of steps that were left when
it started. -/
theorem stepsLeft_run (env : Env) (cfg : Config) (sched : List Tid) (st st2 : State)
    (hr : run env cfg st sched = some st2) :
    sched.length + stepsLeft cfg st2 ≤ stepsLeft cfg st := by
  induction sched generalizing st with
  | nil =>
    simp only [run, Option.some.injEq] at hr
    subst hr
    simp
  | cons t sched ih =>
    simp only [run] at hr
    cases hs : step env cfg st t with
    | none => simp [hs] at hr
    | some st1 =>
      simp only [hs] at hr
      have h1 := ih st1 hr
      have h2 := stepsLeft_step env cfg st st1 t hs
      simp only [List.length_cons]
      omega

/-- As long as main has not returned, some goroutine can take a step. -/
theorem step_enabled (env : Env) (cfg : Config) (items : List ImageInfo) (st : State)
    (h : Inv env cfg items st) (hmain : st.main ≠ .done) :
    ∃ t, (step env cfg st t).isSome = true := by
  rcases st with ⟨world, urls, main, workers, chan, cap, closed, wg, draws, panicked,
    attempts, calls⟩
  obtain ⟨hacct, halive, hcnt, hclosing, hdrained, hwaited, hroom, hids⟩ := h
  simp only at hacct halive hcnt hclosing hdrained hwaited hroom hids hmain
  subst halive
  cases main with
  | add =>
    refine ⟨.main, ?_⟩
    simp only [step, stepMain, Bool.false_eq_true, if_false]
    split <;> rfl
  | spawn i =>
    refine ⟨.main, ?_⟩
    simp only [step, stepMain, Bool.false_eq_true, if_false]
    split <;> rfl
  | push rest =>
    refine ⟨.main, ?_⟩
    cases rest with
    | nil => simp [step, stepMain]
    | cons url rest =>
      have : chan.length < cap := by
        simp only [pendingUrls, List.length_cons] at hroom
        omega
      simp [step, stepMain, this]
  | close => exact ⟨.main, by simp [step, stepMain]⟩
  | wait =>
    by_cases hz : wg = 0
    · exact ⟨.main, by simp [step, stepMain, hz]⟩
    · obtain ⟨hwg, hlen⟩ := hcnt
      have hle := exitedCount_le workers
      have hlt : exitedCount workers < workers.length := by omega
      have hcl : closed = true := by simpa using hclosing
      obtain ⟨i, hi⟩ := exists_running workers hlt
      refine ⟨.worker i, ?_⟩
      rcases hi with hi | ⟨it, hi⟩
      · cases chan with
        | cons it rest => simp [step, stepWorker, hi]
        | nil =>
          simp only [step, stepWorker, hi, hcl, Bool.false_eq_true, if_false, if_true]
          split <;> rfl
      · simp [step, stepWorker, hi]
  | done => exact absurd rfl hmain

/-- C1: with at least one worker (the bound `P ≤ N` is not needed), whatever
the order in which main and the workers take their steps: when main has
returned from `wg.Wait()`, the items the loop body was run for are, counted
with multiplicity, exactly the items main built and sent, each run by one
started worker, and the channel is empty; at every moment before, the items
run so far are among the items sent, none twice; as long as main has not
returned some goroutine can take a step; and no schedule is longer than
`2 P + 3 N + 6` steps, so main does return. -/
theorem dispatch_attempts_each_item_once (env : Env) (cfg : Config) (w : World) (draws : Nat)
    (urls : List String) (hP : 1 ≤ cfg.MaxImageWorkers) :
    (∀ sched st, run env cfg (initState w draws urls) sched = some st → st.main = .done →
      (st.attempts.map Prod.snd).Perm (producerItems env cfg.DownloadDir draws urls) ∧
      (∀ a ∈ st.attempts, (a.1 : Int) < cfg.MaxImageWorkers) ∧
      st.chan = [] ∧ st.panicked = false) ∧
    (∀ sched st, run env cfg (initState w draws urls) sched = some st →
      (st.attempts.map Prod.snd).Subperm (producerItems env cfg.DownloadDir draws urls)) ∧
    (∀ sched st, run env cfg (initState w draws urls) sched = some st → st.main ≠ .done →
      ∃ t, (step env cfg st t).isSome = true) ∧
    (∀ sched st, run env cfg (initState w draws urls) sched = some st →
      sched.length ≤ 2 * cfg.MaxImageWorkers.toNat + 3 * urls.length + 6) := by
  have hinv : ∀ sched st, run env cfg (initState w draws urls) sched = some st →
      Inv env cfg (producerItems env cfg.DownloadDir draws urls) st := fun sched st hr =>
    inv_run env cfg _ (by omega) sched _ st (inv_init env cfg w draws urls) hr
  refine ⟨?_, ?_, ?_, ?_⟩
  · intro sched st hr hdone
    have h := hinv sched st hr
    rcases st with ⟨world, urls2, main, workers, chan, cap, closed, wg, draws2, panicked,
      attempts, calls⟩
    obtain ⟨hacct, halive, hcnt, hclosing, hdrained, hwaited, hroom, hids⟩ := h
    simp only at hacct halive hcnt hclosing hdrained hwaited hroom hids hdone
    subst hdone
    obtain ⟨hwg, hlen⟩ := hcnt
    have hz : wg = 0 := hwaited rfl
    have hall : exitedCount workers = workers.length := by omega
    have hpos : 0 < exitedCount workers := by omega
    have hchan := (hdrained hpos).2
    subst hchan
    refine ⟨?_, ?_, rfl, halive⟩
    · simpa [pendingUrls, busyItems_of_all_exited workers hall, producerItems] using hacct
    · intro a ha
      have := hids a ha
      omega
  · intro sched st hr
    have h := (hinv sched st hr).acct
    simp only [List.append_assoc] at h
    exact (List.sublist_append_left _ _).subperm.trans h.subperm
  · intro sched st hr hmain
    exact step_enabled env cfg _ st (hinv sched st hr) hmain
  · intro sched st hr
    have h := stepsLeft_run env cfg sched _ st hr
    have h0 : stepsLeft cfg (initState w draws urls)
        = 2 * cfg.MaxImageWorkers.toNat + 3 * urls.length + 6 := by
      simp [stepsLeft, initState, mainSteps, unstarted, workerSteps, pendingUrls]
      omega
    omega

/-- A concrete instance of `dispatch_attempts_each_item_once`: two workers,
three URLs and a schedule in which the workers receive while main sends. -/
theorem dispatch_attempts_each_item_once_witness :
    (1 : Int) ≤ twoWorkers.MaxImageWorkers ∧
    ∃ st, run flakyEnv twoWorkers (initState emptyWorld 0 threeUrls) sampleSchedule = some st ∧
      st.main = .done ∧
      (st.attempts.map Prod.snd).Perm (producerItems flakyEnv "images" 0 threeUrls) ∧
      st.attempts.map Prod.fst = [1, 0, 1] := by
  refine ⟨by decide, ?_⟩
  have hsome : (run flakyEnv twoWorkers (initState emptyWorld 0 threeUrls)
      sampleSchedule).isSome = true := by decide
  obtain ⟨st, hst⟩ := Option.isSome_iff_exists.mp hsome
  have hmain : (run flakyEnv twoWorkers (initState emptyWorld 0 threeUrls)
      sampleSchedule).map (fun s => s.main) = some .done := by decide
  have hids : (run flakyEnv twoWorkers (initState emptyWorld 0 threeUrls)
      sampleSchedule).map (fun s => s.attempts.map Prod.fst) = some [1, 0, 1] := by decide
  rw [hst] at hmain hids
  simp only [Option.map_some', Option.some.injEq] at hmain hids
  exact ⟨st, hst, hmain,
    ((dispatch_attempts_each_item_once flakyEnv twoWorkers emptyWorld 0 threeUrls
      (by decide)).1 sampleSchedule st hst hmain).1, hids⟩

/-- A schedule in two parts leads where the second part leads from the state
the first part leads to. -/
theorem run_append (env : Env) (cfg : Config) (st : State) (a b : List Tid) :
    run env cfg st (a ++ b) = (run env cfg st a).bind (fun s => run env cfg s b) := by
  induction a generalizing st with
  | nil => simp [run]
  | cons t a ih =>
    simp only [List.cons_append, run]
    cases step env cfg st t with
    | none => simp
    | some st1 => simpa using ih st1

/-- When the buffer has room for them, main sends the items for all URLs that
are left in as many steps, without any other goroutine taking a step. -/
theorem run_push (env : Env) (cfg : Config) (rest : List String) (st : State)
    (hmain : st.main = .push rest) (halive : st.panicked = false)
    (hroom : st.chan.length + rest.length ≤ st.cap) :
    run env cfg st (List.replicate rest.length .main)
      = some { st with chan := st.chan ++ producerItems env cfg.DownloadDir st.draws rest,
                       draws := st.draws + rest.length, main := .push [] } := by
  induction rest generalizing st with
  | nil =>
    rcases st with ⟨world, urls, main, workers, chan, cap, closed, wg, draws, panicked,
      attempts, calls⟩
    simp only at hmain
    subst hmain
    simp [run, producerItems]
  | cons url rest ih =>
    rcases st with ⟨world, urls, main, workers, chan, cap, closed, wg, draws, panicked,
      attempts, calls⟩
    simp only at hmain halive hroom
    subst hmain halive
    simp only [List.length_cons] at hroom
    have hlt : chan.length < cap := by omega
    simp only [List.length_cons, List.replicate_succ, run, step, stepMain, hlt,
      Bool.false_eq_true, if_false, if_true]
    rw [ih _ rfl rfl (by simp only [List.length_append, List.length_singleton]; omega)]
    simp [producerItems, List.append_assoc, Nat.add_assoc, Nat.add_comm 1]

/-- C3 as stated fails: with `MaxImageWorkers = 0` and three URLs, eight steps
of main send all three items into the channel, close it and return from
`wg.Wait()` without a panic; no worker exists and no item was attempted. -/
theorem dispatch_zero_workers_counterexample :
    (run (sampleEnv 200) noWorkers (initState emptyWorld 0 threeUrls)
      (List.replicate 8 .main)).map
        (fun s => (s.main, s.chan.map (fun it => it.URL), s.attempts.length, s.workers.length,
          s.panicked))
      = some (MainPc.done, threeUrls, 0, 0, false) := by
  decide

/-- C3, amended: with `MaxImageWorkers = 0` the dispatch block starts no
worker, sends every item into the channel, closes it and returns normally
after `N + 5` steps of main, with all items still in the channel and none
attempted, and no schedule ever has a worker or an attempt; with a negative
`MaxImageWorkers` that is not below `-2 ^ 31` the 32-bit counter of the wait
group becomes that negative number, so the first step, `wg.Add`, panics, and
in every state that can be reached the channel is empty, no worker exists,
nothing was attempted and main has not returned. -/
theorem dispatch_without_workers (env : Env) (cfg : Config) (w : World) (draws : Nat)
    (urls : List String) :
    (cfg.MaxImageWorkers = 0 →
      (∃ st, run env cfg (initState w draws urls) (List.replicate (urls.length + 5) .main)
          = some st ∧ st.main = .done ∧ st.panicked = false ∧ st.closed = true ∧
        st.chan = producerItems env cfg.DownloadDir draws urls ∧ st.attempts = [] ∧
        st.workers = []) ∧
      (∀ sched st, run env cfg (initState w draws urls) sched = some st →
        st.attempts = [] ∧ st.workers = [] ∧ st.panicked = false)) ∧
    (-2 ^ 31 ≤ cfg.MaxImageWorkers → cfg.MaxImageWorkers < 0 →
      wgCounter32 ((initState w draws urls).wg + cfg.MaxImageWorkers)
        = cfg.MaxImageWorkers ∧
      (∃ st, step env cfg (initState w draws urls) .main = some st ∧ st.panicked = true ∧
        st.main = .add ∧ st.chan = []) ∧
      (∀ sched st, run env cfg (initState w draws urls) sched = some st →
        st.chan = [] ∧ st.attempts = [] ∧ st.workers = [] ∧ st.main ≠ .done)) := by
  constructor
  · intro hP
    constructor
    · have hsplit : List.replicate (urls.length + 5) Tid.main
          = List.replicate 2 .main ++ (List.replicate urls.length .main
              ++ List.replicate 3 .main) := by
        simp only [← List.replicate_add]
        congr 1
        omega
      rw [hsplit, run_append]
      have h2 : run env cfg (initState w draws urls) (List.replicate 2 .main)
          = some { initState w draws urls with main := .push urls } := by
        simp [run, step, stepMain, initState, hP, List.replicate]
      rw [h2, Option.some_bind, run_append,
        run_push env cfg urls _ rfl rfl (by simp [initState])]
      simp [run, step, stepMain, initState, hP, List.replicate]
    · intro sched st hr
      have h := inv_run env cfg _ (by omega) sched _ st (inv_init env cfg w draws urls) hr
      have hws : st.workers = [] := by
        have hc := h.counter
        have hlen : st.workers.length = 0 := by
          cases hm : st.main <;> rw [hm] at hc <;> simp only at hc <;>
            first
              | (rw [hc.2]; rfl)
              | omega
        exact List.length_eq_zero.mp hlen
      refine ⟨?_, hws, h.alive⟩
      apply List.eq_nil_iff_forall_not_mem.mpr
      intro a ha
      have := h.ids a ha
      rw [hws] at this
      simp at this
  · intro hlow hP
    refine ⟨?_, ?_, ?_⟩
    · simp only [wgCounter32, initState]
      omega
    · exact ⟨{ initState w draws urls with panicked := true },
        by simp [step, stepMain, initState, hP], rfl, rfl, rfl⟩
    · intro sched st hr
      cases sched with
      | nil =>
        simp only [run, Option.some.injEq] at hr
        subst hr
        simp [initState]
      | cons t sched =>
        cases t with
        | worker i => simp [run, step, stepWorker, initState] at hr
        | main =>
          have h1 : step env cfg (initState w draws urls) .main
              = some { initState w draws urls with panicked := true } := by
            simp [step, stepMain, initState, hP]
          simp only [run, h1] at hr
          cases sched with
          | nil =>
            simp only [run, Option.some.injEq] at hr
            subst hr
            simp [initState]
          | cons t2 sched => simp [run, step] at hr

/-- Concrete instances of `dispatch_without_workers`: no worker, and a
negative number of workers. -/
theorem dispatch_without_workers_witness :
    (∃ st, run (sampleEnv 200) noWorkers (initState emptyWorld 0 threeUrls)
        (List.replicate (threeUrls.length + 5) .main) = some st ∧ st.main = .done ∧
      st.chan = producerItems (sampleEnv 200) "images" 0 threeUrls ∧ st.attempts = []) ∧
    (∃ st, step (sampleEnv 200) negativeWorkers (initState emptyWorld 0 threeUrls) .main
        = some st ∧ st.panicked = true ∧ st.chan = []) := by
  have h := dispatch_without_workers (sampleEnv 200) noWorkers emptyWorld 0 threeUrls
  have h2 := dispatch_without_workers (sampleEnv 200) negativeWorkers emptyWorld 0 threeUrls
  obtain ⟨st, hr, hm, _, _, hc, ha, _⟩ := (h.1 (by decide)).1
  obtain ⟨st2, hs, hp, _, hc2⟩ := (h2.2 (by decide) (by decide)).2.1
  exact ⟨⟨st, hr, hm, hc, ha⟩, ⟨st2, hs, hp, hc2⟩⟩

/-- The digit character of a number below ten has that number as value. -/
theorem digitValue_digitChar (d : Nat) (h : d < 10) : digitValue (Nat.digitChar d) = d := by
  interval_cases d <;> rfl

/-- The digits `Nat.toDigitsCore` puts in front of the digits it is given
stand for the number it is given. -/
theorem toDigitsCore_parse (fuel n : Nat) (ds : List Char) (h : n < fuel) :
    ∃ pre, Nat.toDigitsCore 10 fuel n ds = pre ++ ds ∧ parseDecimal pre = n := by
  induction fuel generalizing n ds with
  | zero => omega
  | succ fuel ih =>
    unfold Nat.toDigitsCore
    simp only
    by_cases hz : n / 10 = 0
    · refine ⟨[Nat.digitChar (n % 10)], by simp [hz], ?_⟩
      simp only [parseDecimal, List.foldl_cons, List.foldl_nil,
        digitValue_digitChar (n % 10) (Nat.mod_lt _ (by decide))]
      omega
    · obtain ⟨pre, hpre, hval⟩ := ih (n / 10) (Nat.digitChar (n % 10) :: ds) (by omega)
      refine ⟨pre ++ [Nat.digitChar (n % 10)], by simp [hz, hpre], ?_⟩
      simp only [parseDecimal, List.foldl_append, List.foldl_cons, List.foldl_nil,
        digitValue_digitChar (n % 10) (Nat.mod_lt _ (by decide))]
      simp only [parseDecimal] at hval
      rw [hval]
      omega

/-- Reading the decimal form of a number gives the number back. -/
theorem parseDecimal_formatInt (n : Nat) : parseDecimal (formatInt n).data = n := by
  obtain ⟨pre, hpre, hval⟩ := toDigitsCore_parse (n + 1) n [] (by omega)
  simp only [formatInt, Nat.toDigits, hpre, List.append_nil]
  exact hval

/-- Different values of `rand.Int63` give different file names. -/
theorem fileNameOf_injective : Function.Injective fileNameOf := by
  intro a b h
  have h2 : (fileNameOf a).data = (fileNameOf b).data := by rw [h]
  simp only [fileNameOf, String.data_append] at h2
  have h3 := List.append_cancel_right h2
  have h4 := congrArg parseDecimal h3
  simpa [parseDecimal_formatInt] using h4

/-- The file names of the items main builds are the file names of the values
of `rand.Int63`, in order. -/
theorem producerItems_fileNames (env : Env) (dir : String) (draws : Nat) (urls : List String) :
    (producerItems env dir draws urls).map (fun it => it.FileName)
      = (producerDraws env draws urls.length).map fileNameOf := by
  induction urls generalizing draws with
  | nil => simp [producerItems, producerDraws]
  | cons url rest ih =>
    simp only [producerItems, List.map_cons, ih, producerDraws, List.length_cons,
      List.range_succ_eq_map, List.map_map, Nat.add_zero]
    congr 1
    apply List.map_congr_left
    intro i _
    simp only [Function.comp]
    congr 2
    omega

/-- What main's items give for a function of directory and file name is what
the values of `rand.Int63` give for it, in order. -/
theorem producerItems_map (env : Env) (dir : String) (draws : Nat) (urls : List String)
    (g : String → String → String) :
    (producerItems env dir draws urls).map (fun it => g it.Directory it.FileName)
      = (producerDraws env draws urls.length).map (fun r => g dir (fileNameOf r)) := by
  induction urls generalizing draws with
  | nil => simp [producerItems, producerDraws]
  | cons url rest ih =>
    simp only [producerItems, List.map_cons, ih, producerDraws, List.length_cons,
      List.range_succ_eq_map, List.map_map, Nat.add_zero]
    congr 1
    apply List.map_congr_left
    intro i _
    simp only [Function.comp]
    congr 3
    omega

/-- The items main builds are one per URL, with that URL and the download
directory. -/
theorem producerItems_urls (env : Env) (dir : String) (draws : Nat) (urls : List String) :
    (producerItems env dir draws urls).map (fun it => it.URL) = urls ∧
    (producerItems env dir draws urls).length = urls.length ∧
    ∀ it ∈ producerItems env dir draws urls, it.Directory = dir := by
  induction urls generalizing draws with
  | nil => simp [producerItems]
  | cons url rest ih =>
    obtain ⟨h1, h2, h3⟩ := ih (draws + 1)
    refine ⟨by simp [producerItems, h1], by simp [producerItems, h2], ?_⟩
    intro it hit
    simp only [producerItems, List.mem_cons] at hit
    rcases hit with hit | hit
    · subst hit
      rfl
    · exact h3 it hit

/-- C8 as stated fails: nothing keeps `rand.Int63` from returning a value it
returned before; when the first and the third value are the same, the first
and the third work item get the same file name, the same raw path and the
same resized path. -/
theorem producer_names_counterexample :
    ((producerItems repeatingEnv "./images" 0 threeUrls).map (fun it => it.FileName))[0]?
      = ((producerItems repeatingEnv "./images" 0 threeUrls).map (fun it => it.FileName))[2]? ∧
    ¬ ((producerItems repeatingEnv "./images" 0 threeUrls).map
        (fun it => it.FileName)).Nodup ∧
    ¬ ((producerItems repeatingEnv "./images" 0 threeUrls).map
        (fun it => repeatingEnv.join it.Directory it.FileName)).Nodup ∧
    ¬ ((producerItems repeatingEnv "./images" 0 threeUrls).map
        (fun it => repeatingEnv.join "./resized_images" it.FileName)).Nodup := by
  refine ⟨rfl, ?_, ?_, ?_⟩ <;> simp [producerItems, repeatingEnv, sampleEnv, threeUrls]

/-- C8, amended: the file names main gives the work items of a run are the
decimal forms of the values `rand.Int63` returned, followed by `.jpg`; they
are pairwise distinct exactly when those values are pairwise distinct.  The
raw paths, and the resized paths, of two work items can only all differ when
the values do; and when the values are pairwise distinct and `filepath.Join`
gives different file names of the directory different paths, the raw paths of
the work items are pairwise distinct, and so are their resized paths. -/
theorem producer_names_distinct_iff (env : Env) (dir rdir : String) (draws : Nat)
    (urls : List String) :
    (((producerItems env dir draws urls).map (fun it => it.FileName)).Nodup ↔
      (producerDraws env draws urls.length).Nodup) ∧
    (((producerItems env dir draws urls).map (fun it => env.join it.Directory it.FileName)).Nodup →
      (producerDraws env draws urls.length).Nodup) ∧
    (((producerItems env dir draws urls).map (fun it => env.join rdir it.FileName)).Nodup →
      (producerDraws env draws urls.length).Nodup) ∧
    ((producerDraws env draws urls.length).Nodup →
      (∀ r s, env.join dir (fileNameOf r) = env.join dir (fileNameOf s) → r = s) →
      ((producerItems env dir draws urls).map
        (fun it => env.join it.Directory it.FileName)).Nodup) ∧
    ((producerDraws env draws urls.length).Nodup →
      (∀ r s, env.join rdir (fileNameOf r) = env.join rdir (fileNameOf s) → r = s) →
      ((producerItems env dir draws urls).map (fun it => env.join rdir it.FileName)).Nodup) := by
  have hraw := producerItems_map env dir draws urls env.join
  have hres := producerItems_map env dir draws urls (fun _ f => env.join rdir f)
  refine ⟨?_, ?_, ?_, ?_, ?_⟩
  · rw [producerItems_fileNames]
    exact List.nodup_map_iff fileNameOf_injective
  · intro h
    rw [hraw] at h
    exact h.of_map _
  · intro h
    rw [hres] at h
    exact h.of_map _
  · intro hd hinj
    rw [hraw]
    exact hd.map (fun r s h => hinj r s h)
  · intro hd hinj
    rw [hres]
    exact hd.map (fun r s h => hinj r s h)

/-- The function `sampleJoin` gives different file names of a directory
different paths. -/
theorem sampleJoin_injective (d a b : String) (h : sampleJoin d a = sampleJoin d b) :
    a = b := by
  have h2 := congrArg String.data h
  simp only [sampleJoin, String.data_append] at h2
  exact String.ext (List.append_cancel_left h2)

/-- A concrete instance of `producer_names_distinct_iff`: three URLs and three
different values of `rand.Int63`. -/
theorem producer_names_distinct_iff_witness :
    ((producerItems (sampleEnv 200) "./images" 0 threeUrls).map
      (fun it => it.FileName)).Nodup ∧
    ((producerItems (sampleEnv 200) "./images" 0 threeUrls).map
      (fun it => (sampleEnv 200).join it.Directory it.FileName)).Nodup ∧
    ((producerItems (sampleEnv 200) "./images" 0 threeUrls).map
      (fun it => (sampleEnv 200).join "./resized_images" it.FileName)).Nodup := by
  have h := producer_names_distinct_iff (sampleEnv 200) "./images" "./resized_images" 0 threeUrls
  have hd : (producerDraws (sampleEnv 200) 0 threeUrls.length).Nodup := by decide
  exact ⟨h.1.mpr hd,
    h.2.2.2.1 hd (fun r s e =>
      fileNameOf_injective (sampleJoin_injective "./images" (fileNameOf r) (fileNameOf s) e)),
    h.2.2.2.2 hd (fun r s e =>
      fileNameOf_injective
        (sampleJoin_injective "./resized_images" (fileNameOf r) (fileNameOf s) e))⟩

/-- C10 as stated fails: the input asks for one image, the page the collector
gets has two `img` elements whose `src` starts with `http`, and main builds
two work items; with two workers both are sent and attempted. -/
theorem collect_unbounded_counterexample :
    oneImage.MaxImages = 1 ∧
    (producerItems (sampleEnv 200) "./images" 0
      (collectImageUrls (sampleEnv 200) oneImage)).map (fun it => it.URL)
        = ["http://h/1.png", "http://h/2.png"] ∧
    (run (sampleEnv 200) twoWorkers
      (initState emptyWorld 0 (collectImageUrls (sampleEnv 200) oneImage))
      [.main, .main, .main, .main, .main, .main, .main, .main, .worker 0, .worker 0,
       .worker 0, .worker 0, .worker 0, .worker 1, .main]).map
        (fun s => (s.main, s.attempts.map (fun a => a.2.URL)))
      = some (MainPc.done, ["http://h/1.png", "http://h/2.png"]) := by
  decide

/-- C10, amended: the work items main builds for a search input are one per
`img` element of the page the collector got whose `src` starts with `http`,
in document order; their number is the number of those elements, whatever
`MaxImages` is (`MaxImages` only appears in the URL that is visited); and when
the number of workers is not negative and main has returned, the items
attempted and the items left in the channel are together that many. -/
theorem collect_enqueues_every_http_src (env : Env) (cfg : Config) (w : World) (draws : Nat)
    (input : SearchInput) :
    (producerItems env cfg.DownloadDir draws (collectImageUrls env input)).map (fun it => it.URL)
      = (env.visit (searchUrl input)).filter hasHttpPrefix ∧
    (producerItems env cfg.DownloadDir draws (collectImageUrls env input)).length
      = (env.visit (searchUrl input)).countP hasHttpPrefix ∧
    (0 ≤ cfg.MaxImageWorkers →
      ∀ sched st, run env cfg (initState w draws (collectImageUrls env input)) sched = some st →
        st.main = .done →
        st.attempts.length + st.chan.length = (env.visit (searchUrl input)).countP hasHttpPrefix)
    := by
  have hlen : (producerItems env cfg.DownloadDir draws (collectImageUrls env input)).length
      = (env.visit (searchUrl input)).countP hasHttpPrefix := by
    rw [(producerItems_urls env cfg.DownloadDir draws _).2.1, collectImageUrls,
      List.countP_eq_length_filter]
  refine ⟨(producerItems_urls env cfg.DownloadDir draws _).1, hlen, ?_⟩
  intro hP sched st hr hdone
  have h := inv_run env cfg _ hP sched _ st
    (inv_init env cfg w draws (collectImageUrls env input)) hr
  rcases st with ⟨world, urls2, main, workers, chan, cap, closed, wg, draws2, panicked,
    attempts, calls⟩
  obtain ⟨hacct, halive, hcnt, hclosing, hdrained, hwaited, hroom, hids⟩ := h
  simp only at hacct halive hcnt hclosing hdrained hwaited hroom hids hdone
  subst hdone
  obtain ⟨hwg, hlen2⟩ := hcnt
  have hz : wg = 0 := hwaited rfl
  have hall : exitedCount workers = workers.length := by omega
  have hp := hacct.length_eq
  simp only [pendingUrls, busyItems_of_all_exited workers hall, producerItems,
    List.append_nil, List.length_append, List.length_map] at hp
  simp only
  omega

/-- A concrete instance of `collect_enqueues_every_http_src`: a page with
three `img` elements, two of them with a `src` that starts with `http`. -/
theorem collect_enqueues_every_http_src_witness :
    (producerItems (sampleEnv 200) "images" 0
      (collectImageUrls (sampleEnv 200) oneImage)).length = 2 ∧
    ∃ st, run (sampleEnv 200) twoWorkers
        (initState emptyWorld 0 (collectImageUrls (sampleEnv 200) oneImage))
        [.main, .main, .main, .main, .main, .main, .main, .main, .worker 0, .worker 0,
         .worker 0, .worker 0, .worker 0, .worker 1, .main] = some st ∧
      st.attempts.length + st.chan.length = 2 := by
  have h := collect_enqueues_every_http_src (sampleEnv 200) twoWorkers emptyWorld 0 oneImage
  have hsome : (run (sampleEnv 200) twoWorkers
      (initState emptyWorld 0 (collectImageUrls (sampleEnv 200) oneImage))
      [.main, .main, .main, .main, .main, .main, .main, .main, .worker 0, .worker 0,
       .worker 0, .worker 0, .worker 0, .worker 1, .main]).isSome = true := by decide
  obtain ⟨st, hst⟩ := Option.isSome_iff_exists.mp hsome
  have hmain : (run (sampleEnv 200) twoWorkers
      (initState emptyWorld 0 (collectImageUrls (sampleEnv 200) oneImage))
      [.main, .main, .main, .main, .main, .main, .main, .main, .worker 0, .worker 0,
       .worker 0, .worker 0, .worker 0, .worker 1, .main]).map (fun s => s.main)
        = some .done := by decide
  rw [hst] at hmain
  simp only [Option.map_some', Option.some.injEq] at hmain
  exact ⟨h.2.1.trans (by decide), st, hst, (h.2.2 (by decide) _ st hst hmain).trans (by decide)⟩

/-- Every item main builds has the download directory as directory and the
file name of a value of `rand.Int63` as file name. -/
theorem producerItems_mem (env : Env) (dir : String) (draws : Nat) (urls : List String)
    (it : ImageInfo) (h : it ∈ producerItems env dir draws urls) :
    it.Directory = dir ∧ ∃ r, it.FileName = fileNameOf r := by
  induction urls generalizing draws with
  | nil => simp [producerItems] at h
  | cons url rest ih =>
    simp only [producerItems, List.mem_cons] at h
    rcases h with h | h
    · subst h
      exact ⟨rfl, _, rfl⟩
    · exact ih (draws + 1) h

/-- C5: a worker started by main (resized directory `./resized_images`,
100 x 100) runs over a queue of items main built (directory `./images`, file
name made from a value of `rand.Int63`), and `filepath.Join` gives a file of
`./images` and a file of `./resized_images` different paths.  For an item
whose download and resize both succeed: the calls made are download, resize,
store and then `os.Remove` of the resized path, whether the store succeeded or
failed, and the resized file is gone when `os.Remove` is not refused; no call
of `os.Remove`, for this item or a later one, is given anything but the
resized path of an item of the queue, and never the raw path of an item main
built; the raw file is there after the item with the content the download
gave it, and it is still there when the worker ends; and whether or not the
deletion failed, the loop goes on with the rest of the queue. -/
theorem worker_cleanup (env : Env) (dsn : String) (draws : Nat) (urls : List String)
    (w : World) (imgInfo : ImageInfo) (post : List ImageInfo)
    (hqueue : ∀ it ∈ imgInfo :: post,
      it ∈ producerItems env (mainConfig dsn).DownloadDir draws urls)
    (hjoin : ∀ r s : Nat, env.join (mainConfig dsn).DownloadDir (fileNameOf r)
      ≠ env.join (mainConfig dsn).ResizedDir (fileNameOf s))
    (hdl : (downloadImage env w imgInfo.URL imgInfo.Directory imgInfo.FileName).2 = none)
    (hrs : (resizeImage env
      (downloadImage env w imgInfo.URL imgInfo.Directory imgInfo.FileName).1
      (env.join imgInfo.Directory imgInfo.FileName)
      (env.join (mainConfig dsn).ResizedDir imgInfo.FileName)
      (mainConfig dsn).ResizeWidth (mainConfig dsn).ResizeHeight).2 = none) :
    let cfg := mainConfig dsn
    let rawPath := env.join imgInfo.Directory imgInfo.FileName
    let resizedPath := env.join cfg.ResizedDir imgInfo.FileName
    let item := processItem env cfg.ResizeWidth cfg.ResizeHeight cfg.ResizedDir w imgInfo
    let all := downloadResizeAndStoreWorker env cfg.ResizeWidth cfg.ResizeHeight cfg.ResizedDir w
      (imgInfo :: post)
    let rest := downloadResizeAndStoreWorker env cfg.ResizeWidth cfg.ResizeHeight cfg.ResizedDir
      item.1 post
    item.2 = [downloadCall imgInfo,
      resizeCall env cfg.ResizeWidth cfg.ResizeHeight cfg.ResizedDir imgInfo,
      storeCall env cfg.ResizedDir imgInfo, .remove resizedPath] ∧
    ((∀ t, env.removeFails t resizedPath = false) → item.1.fs resizedPath = none) ∧
    (∀ c ∈ all.2, ∀ p, c.removedPath = some p →
      (∃ it ∈ imgInfo :: post, p = env.join cfg.ResizedDir it.FileName) ∧
      ∀ it ∈ producerItems env cfg.DownloadDir draws urls,
        p ≠ env.join it.Directory it.FileName) ∧
    item.1.fs rawPath
      = (downloadImage env w imgInfo.URL imgInfo.Directory imgInfo.FileName).1.fs rawPath ∧
    (item.1.fs rawPath).isSome = true ∧
    (all.1.fs rawPath).isSome = true ∧
    all.1 = rest.1 ∧ all.2 = item.2 ++ rest.2 := by
  intro cfg rawPath resizedPath item all rest
  have hsep : ∀ a ∈ producerItems env cfg.DownloadDir draws urls,
      ∀ b ∈ producerItems env cfg.DownloadDir draws urls,
        env.join a.Directory a.FileName ≠ env.join cfg.ResizedDir b.FileName := by
    intro a ha b hb
    obtain ⟨hda, r, hfa⟩ := producerItems_mem env _ draws urls a ha
    obtain ⟨_, s2, hfb⟩ := producerItems_mem env _ draws urls b hb
    rw [hda, hfa, hfb]
    exact hjoin r s2
  have hmem := hqueue imgInfo (List.mem_cons_self _ _)
  have hne : rawPath ≠ resizedPath := hsep imgInfo hmem imgInfo hmem
  have hgen := processItem_cleanup env cfg.ResizeWidth cfg.ResizeHeight cfg.ResizedDir w
    imgInfo post hdl hrs
  obtain ⟨hcalls, hrem, hraw, hgone, hw1, hw2⟩ := hgen
  have hraw2 := hraw hne
  refine ⟨hcalls, hgone, ?_, hraw2.1, hraw2.2, ?_, hw1, hw2⟩
  · intro c hc p hp
    obtain ⟨it, hit, hpit⟩ := hrem c hc p hp
    refine ⟨⟨it, hit, hpit⟩, ?_⟩
    intro it2 hit2 heq
    exact hsep it2 hit2 it (hqueue it hit) (heq.symm.trans hpit)
  · have hkeep := downloadResizeAndStoreWorker_fs_keeps env cfg.ResizeWidth cfg.ResizeHeight
      cfg.ResizedDir item.1 post rawPath
      (fun it hit => hsep imgInfo hmem it (hqueue it (List.mem_cons_of_mem _ hit))) hraw2.2
    have hall : all.1 = rest.1 := hw1
    rw [hall]
    exact hkeep

/-- The function `sampleJoin` gives a file of `./images` and a file of
`./resized_images` different paths. -/
theorem sampleJoin_separates (a b : String) :
    sampleJoin "./images" a ≠ sampleJoin "./resized_images" b := by
  intro h
  have h2 := congrArg String.data h
  simp [sampleJoin, String.data_append] at h2

/-- A concrete instance of `worker_cleanup`: the one item main builds for one
URL, with raw path `images/5577006791947779410.jpg`. -/
theorem worker_cleanup_witness :
    (processItem (sampleEnv 200) 100 100 "./resized_images" emptyWorld mainItem).2
      = [downloadCall mainItem, resizeCall (sampleEnv 200) 100 100 "./resized_images" mainItem,
         storeCall (sampleEnv 200) "./resized_images" mainItem,
         .remove "resized_images/5577006791947779410.jpg"] ∧
    (processItem (sampleEnv 200) 100 100 "./resized_images" emptyWorld mainItem).1.fs
      "resized_images/5577006791947779410.jpg" = none ∧
    (processItem (sampleEnv 200) 100 100 "./resized_images" emptyWorld mainItem).1.fs
      "images/5577006791947779410.jpg" = some [50, 50, 7] := by
  have h := worker_cleanup (sampleEnv 200) "dsn" 0 oneUrl emptyWorld mainItem []
    (by decide) (fun r s => sampleJoin_separates _ _) (by decide) (by decide)
  refine ⟨h.1.trans (by decide), ?_, ?_⟩
  · exact (by decide : (sampleEnv 200).join "./resized_images" mainItem.FileName
        = "resized_images/5577006791947779410.jpg") ▸ h.2.1 (fun _ => rfl)
  · exact (by decide : (sampleEnv 200).join mainItem.Directory mainItem.FileName
        = "images/5577006791947779410.jpg") ▸ (h.2.2.2.1.trans (by decide))

/-- The environment `sampleEnv` keeps the contract of the image libraries. -/
theorem sampleEnv_codec (status : Nat) : CodecContract (sampleEnv status) := by
  constructor
  · intro width height img _ _
    exact ⟨rfl, rfl⟩
  · intro img hw hh
    simp [sampleEnv, hw, hh]
  · intro img h
    have : ¬ (img.width < 65536 ∧ img.height < 65536) := by omega
    simp [sampleEnv, this]
  · intro img bytes h
    by_cases hlim : img.width < 65536 ∧ img.height < 65536
    · simp only [sampleEnv, hlim, and_self, if_true, Option.some.injEq] at h
      subst h
      exact ⟨⟨img.width, img.height, []⟩, rfl, rfl, rfl⟩
    · simp [sampleEnv, hlim] at h

/-- C7 as stated fails: the input decodes as an image of 50 x 50 and the output
path is writable, but for width 70000 and height 1 `jpeg.Encode` refuses the
resized image; `resizeImage` returns the error and leaves an empty output
file. -/
theorem resizeImage_too_large_counterexample :
    rawWorld.fs "images/1.jpg" = some [50, 50, 7] ∧
    (sampleEnv 200).decode [50, 50, 7] = some ⟨50, 50, [7]⟩ ∧
    (sampleEnv 200).createFails 2 "resized_images/1.jpg" = false ∧
    (sampleEnv 200).writeLimit 3 "resized_images/1.jpg" = none ∧
    (resizeImage (sampleEnv 200) rawWorld "images/1.jpg" "resized_images/1.jpg" 70000 1).2
      = some Err.encode ∧
    (resizeImage (sampleEnv 200) rawWorld "images/1.jpg" "resized_images/1.jpg" 70000 1).1.fs
      "resized_images/1.jpg" = some [] := by
  decide

/-- C7, amended: the image libraries keep their contract, the input file
decodes as an image and the output path is writable.  For every width and
height from 1 to 65535, `resizeImage` succeeds, creates the output file, and
what is written there decodes to an image whose dimensions are exactly
`(width, height)`, whatever the dimensions of the input (no aspect ratio is
kept, a smaller input is scaled up).  For a width or a height of 65536 or
more, `jpeg.Encode` refuses the resized image and `resizeImage` returns its
error, leaving an empty output file. -/
theorem resizeImage_dimensions (env : Env) (hc : CodecContract env) (w : World)
    (inputPath outputPath : String) (width height : Nat) (content : Bytes) (img : Image)
    (hwidth : 1 ≤ width) (hheight : 1 ≤ height)
    (hfs : w.fs inputPath = some content)
    (hopen : env.openFails w.tick inputPath = false)
    (hread : env.readFails (w.tick + 1) inputPath = false)
    (hdec : env.decode content = some img)
    (hcreate : env.createFails (w.tick + 2) outputPath = false)
    (hwrite : env.writeLimit (w.tick + 3) outputPath = none) :
    (width < 65536 → height < 65536 →
      (resizeImage env w inputPath outputPath width height).2 = none ∧
      ∃ jpegBytes out,
        (resizeImage env w inputPath outputPath width height).1.fs outputPath
          = some jpegBytes ∧
        env.decode jpegBytes = some out ∧ out.width = width ∧ out.height = height) ∧
    ((65536 ≤ width ∨ 65536 ≤ height) →
      (resizeImage env w inputPath outputPath width height).2 = some Err.encode ∧
      (resizeImage env w inputPath outputPath width height).1.fs outputPath = some []) := by
  obtain ⟨hbw, hbh⟩ := hc.resize_bounds width height img hwidth hheight
  constructor
  · intro hw hh
    have hacc := hc.encode_accepts (env.resize width height img) (by omega) (by omega)
    obtain ⟨jpegBytes, henc⟩ := Option.isSome_iff_exists.mp hacc
    obtain ⟨out, hout, how, hoh⟩ := hc.roundtrip _ _ henc
    refine ⟨?_, jpegBytes, out, ?_, hout, by omega, by omega⟩
    · simp [resizeImage, hfs, hopen, hread, hdec, hcreate, hwrite, henc, World.next,
        writeBytes]
    · simp [resizeImage, hfs, hopen, hread, hdec, hcreate, hwrite, henc, World.next,
        writeBytes, writeFile]
  · intro hbig
    have henc := hc.encode_refuses (env.resize width height img) (by omega)
    constructor
    · simp [resizeImage, hfs, hopen, hread, hdec, hcreate, henc, World.next]
    · simp [resizeImage, hfs, hopen, hread, hdec, hcreate, henc, World.next, writeFile]

/-- A concrete instance of `resizeImage_dimensions`: an input of 50 x 50 is
scaled up to 100 x 100, and to 200 x 30 without keeping its aspect ratio. -/
theorem resizeImage_dimensions_witness :
    ((resizeImage (sampleEnv 200) rawWorld "images/1.jpg" "resized_images/1.jpg" 100 100).2
        = none ∧
      ∃ jpegBytes out,
        (resizeImage (sampleEnv 200) rawWorld "images/1.jpg" "resized_images/1.jpg"
          100 100).1.fs "resized_images/1.jpg" = some jpegBytes ∧
        (sampleEnv 200).decode jpegBytes = some out ∧ out.width = 100 ∧ out.height = 100) ∧
    ((resizeImage (sampleEnv 200) rawWorld "images/1.jpg" "resized_images/1.jpg" 200 30).2
        = none ∧
      ∃ jpegBytes out,
        (resizeImage (sampleEnv 200) rawWorld "images/1.jpg" "resized_images/1.jpg"
          200 30).1.fs "resized_images/1.jpg" = some jpegBytes ∧
        (sampleEnv 200).decode jpegBytes = some out ∧ out.width = 200 ∧ out.height = 30) :=
  ⟨(resizeImage_dimensions (sampleEnv 200) (sampleEnv_codec 200) rawWorld "images/1.jpg"
      "resized_images/1.jpg" 100 100 [50, 50, 7] ⟨50, 50, [7]⟩ (by decide) (by decide)
      (by decide) rfl rfl rfl rfl rfl).1 (by decide) (by decide),
   (resizeImage_dimensions (sampleEnv 200) (sampleEnv_codec 200) rawWorld "images/1.jpg"
      "resized_images/1.jpg" 200 30 [50, 50, 7] ⟨50, 50, [7]⟩ (by decide) (by decide)
      (by decide) rfl rfl rfl rfl rfl).1 (by decide) (by decide)⟩

end ImageDownloader
